import Mathlib

/-!
Shallow embedding of the dragabyte storage analyzer's core client logic:
the filter / search predicate engine, the treemap layout engine
(`recursiveSplit`), the remote list request/response bookkeeping, and the
remote connection panel.  String sizes and rectangle coordinates are
modelled over `Nat` / `Rat` (JS numbers at the precision the claims ask
about); JS strings are modelled as Lean `String` over their character
lists; JS `RegExp` objects are modelled as abstract test functions
`String → Bool` produced by an abstract compiler parameter, since the
regular-expression engine itself is a host facility.
-/

namespace Dragabyte

/-! ### JS string primitives used by the source -/

/-- Model of ECMAScript `String.prototype.includes`: `pat` occurs as a
contiguous substring of `hay` (the empty pattern always occurs). -/
def containsSub : List Char → List Char → Bool
  | hay, pat =>
    pat.isPrefixOf hay ||
      match hay with
      | [] => false
      | _ :: t => containsSub t pat

/-- Embeds `s.includes(sub)` on strings. -/
def strIncludes (s sub : String) : Bool :=
  containsSub s.toList sub.toList

/-- Forward scan computing `s.lastIndexOf(c)`: the greatest index holding
`c`, or `-1` when absent (JS semantics). -/
def lastIndexOfCharAux (c : Char) : List Char → Nat → Int → Int
  | [], _, acc => acc
  | d :: rest, i, acc =>
      lastIndexOfCharAux c rest (i + 1) (if d = c then (i : Int) else acc)

/-- Embeds `s.lastIndexOf(c)` for a single-character needle. -/
def lastIndexOfChar (s : String) (c : Char) : Int :=
  lastIndexOfCharAux c s.toList 0 (-1)

/-- Forward scan computing `s.indexOf(c)`: the least index holding `c`,
or `-1` when absent (JS semantics). -/
def firstIndexOfCharAux (c : Char) : List Char → Nat → Int
  | [], _ => -1
  | d :: rest, i => if d = c then (i : Int) else firstIndexOfCharAux c rest (i + 1)

/-- Embeds `s.indexOf(c)` for a single-character needle. -/
def firstIndexOfChar (s : String) (c : Char) : Int :=
  firstIndexOfCharAux c s.toList 0

/-- Embeds `s.slice(a)` — the suffix of `s` from character index `a`. -/
def sliceFrom (s : String) (a : Nat) : String :=
  String.mk (s.toList.drop a)

/-- Embeds `s.slice(a, b)` — characters from index `a` (inclusive) to `b`
(exclusive). -/
def sliceStr (s : String) (a b : Nat) : String :=
  String.mk ((s.toList.drop a).take (b - a))

/-- Embeds `s.toLowerCase()` (character-wise, over the character list so that it
computes by kernel reduction). -/
def strToLower (s : String) : String :=
  String.mk (s.toList.map Char.toLower)

/-- Embeds `s.trim()` — strip leading and trailing whitespace. -/
def strTrim (s : String) : String :=
  String.mk
    (((s.toList.dropWhile Char.isWhitespace).reverse.dropWhile Char.isWhitespace).reverse)

/-- Embeds `s.startsWith(pre)`. -/
def strStartsWith (s pre : String) : Bool :=
  pre.toList.isPrefixOf s.toList

/-- Split a character list at every separator character (JS
`String.prototype.split` with a single-character class: empty pieces are
kept). -/
def splitChars (p : Char → Bool) (cs : List Char) : List (List Char) :=
  cs.foldr
    (fun c acc =>
      if p c then [] :: acc
      else
        match acc with
        | [] => [[c]]
        | piece :: rest => (c :: piece) :: rest)
    [[]]

/-- Embeds `s.split(sep)` for a single-character separator class. -/
def strSplit (s : String) (p : Char → Bool) : List String :=
  (splitChars p s.toList).map String.mk

/-- Membership test of a string list (`Set.has` / `Array.includes`). -/
def listHas (l : List String) (x : String) : Bool :=
  l.any fun y => y = x

/-! ### Predicate engine (filter / search compilation)

Embedded from the search-and-filter helpers of the scan page component.
A compiled JS `RegExp` is modelled as its test function `String → Bool`;
`new RegExp(pattern, flags)` is an abstract `RegexCompiler` parameter
returning `none` when construction throws. -/

/-- Abstract model of `new RegExp(pattern, flags)`. -/
def RegexCompiler : Type := String → String → Option (String → Bool)

/-- Embeds `getPathExtension`: lowercased text after the last dot of the whole
path, `null` when the last dot is missing, at index `0`, or final. -/
def getPathExtension (path : String) : Option String :=
  let lastDot := lastIndexOfChar path '.'
  if lastDot ≤ 0 ∨ lastDot = (path.length : Int) - 1 then none
  else some (strToLower (sliceFrom path (lastDot.toNat + 1)))

/-- One step of `parseListInput`'s loop: trim, strip one leading dot,
lowercase, and keep first occurrences only. -/
def parseListStep (acc : List String) (raw : String) : List String :=
  if raw = "" then acc
  else
    let trimmed := strTrim raw
    let stripped := if strStartsWith trimmed "." then sliceFrom trimmed 1 else trimmed
    let cleaned := strToLower stripped
    if cleaned = "" ∨ listHas acc cleaned = true then acc else acc ++ [cleaned]

/-- Embeds `parseListInput`: split on commas and newlines, normalize each piece,
drop empties and duplicates. -/
def parseListInput (value : String) : List String :=
  (strSplit value fun c => c = ',' || c = '\n').foldl parseListStep []

/-- Binary byte-unit multipliers (`SIZE_UNITS`). -/
def sizeUnitMultiplier : String → Option Nat
  | "b" => some 1
  | "kb" => some 1024
  | "mb" => some (1024 ^ 2)
  | "gb" => some (1024 ^ 3)
  | "tb" => some (1024 ^ 4)
  | _ => none

/-- Digits of a char list interpreted as a base-10 natural number. -/
def digitsToNat (ds : List Char) : Nat :=
  ds.foldl (fun acc d => acc * 10 + (d.toNat - '0'.toNat)) 0

/-- Embeds `parseSizeValue`: match `^(\d+(?:\.\d+)?)(b|kb|mb|gb|tb)?$` against the
trimmed lowercased input and return `Math.round(value * multiplier)`.
Rounding half-up of `n.f * m` is computed exactly as
`(2 * digits * m + 10^f) / (2 * 10^f)` over `Nat`. -/
def parseSizeValue (raw : String) : Option Nat :=
  let s := strToLower (strTrim raw)
  let cs := s.toList
  let intDigits := cs.takeWhile Char.isDigit
  if intDigits = [] then none
  else
    let rest := cs.drop intDigits.length
    let fracResult : Option (List Char × List Char) :=
      match rest with
      | '.' :: tail =>
          let fracDigits := tail.takeWhile Char.isDigit
          if fracDigits = [] then none
          else some (fracDigits, tail.drop fracDigits.length)
      | _ => some ([], rest)
    match fracResult with
    | none => none
    | some (fracDigits, unitChars) =>
        let unitStr := String.mk unitChars
        match sizeUnitMultiplier (if unitStr = "" then "b" else unitStr) with
        | none => none
        | some mult =>
            let n := digitsToNat (intDigits ++ fracDigits)
            let d := 10 ^ fracDigits.length
            some ((2 * n * mult + d) / (2 * d))

/-- Embeds `parseRegexToken`: empty input compiles to nothing; `/pat/flags`
delimited input compiles the delimited pattern (empty flags default to
`i`); anything else compiles case-insensitively; a throwing constructor
yields `null`. -/
def parseRegexToken (compile : RegexCompiler) (value : String) : Option (String → Bool) :=
  let trimmed := strTrim value
  if trimmed = "" then none
  else if strStartsWith trimmed "/" ∧ 0 < lastIndexOfChar trimmed '/' then
    let lastSlash := (lastIndexOfChar trimmed '/').toNat
    let pattern := sliceStr trimmed 1 lastSlash
    let flags0 := sliceFrom trimmed (lastSlash + 1)
    compile pattern (if flags0 = "" then "i" else flags0)
  else compile trimmed "i"

/-- Compiled search parameters (`SearchParams`). -/
structure SearchParams where
  terms : List String
  nameTerms : List String
  pathTerms : List String
  exts : List String
  regex : Option (String → Bool)
  minSize : Option Nat
  maxSize : Option Nat

/-- An entry the search predicate inspects (`SearchEntry`). -/
structure SearchEntry where
  name : String
  path : String
  sizeBytes : Nat
deriving DecidableEq

/-- Split a `size<op><value>` token into operator and value, mirroring
`/^size(<=|>=|=|<|>)(.+)$/` (alternatives tried in order, value
non-empty). -/
def matchSizeToken (token : String) : Option (String × String) :=
  if strStartsWith token "size" then
    let rest := sliceFrom token 4
    if strStartsWith rest "<=" then
      let v := sliceFrom rest 2; if v = "" then none else some ("<=", v)
    else if strStartsWith rest ">=" then
      let v := sliceFrom rest 2; if v = "" then none else some (">=", v)
    else if strStartsWith rest "=" then
      let v := sliceFrom rest 1; if v = "" then none else some ("=", v)
    else if strStartsWith rest "<" then
      let v := sliceFrom rest 1; if v = "" then none else some ("<", v)
    else if strStartsWith rest ">" then
      let v := sliceFrom rest 1; if v = "" then none else some (">", v)
    else none
  else none

/-- Embeds `applySizeToken`: returns the updated params and whether the token was
recognized as a size constraint. -/
def applySizeToken (params : SearchParams) (token : String) : SearchParams × Bool :=
  match matchSizeToken token with
  | none => (params, false)
  | some (op, sizeToken) =>
      if sizeToken = "" then (params, true)
      else
        match parseSizeValue sizeToken with
        | none => (params, true)
        | some sizeValue =>
            let params :=
              if op = ">" ∨ op = ">=" then { params with minSize := some sizeValue } else params
            let params :=
              if op = "<" ∨ op = "<=" then { params with maxSize := some sizeValue } else params
            let params :=
              if op = "=" then
                { params with minSize := some sizeValue, maxSize := some sizeValue }
              else params
            (params, true)

/-- Ordered-set insertion used for `params.exts.add(ext)`. -/
def setAdd (s : List String) (x : String) : List String :=
  if listHas s x then s else s ++ [x]

/-- Embeds `applyKeyToken`: interpret `key:value` tokens (`name:`, `path:`,
`ext:`, `regex:`; any other key falls back to a bare term). -/
def applyKeyToken (compile : RegexCompiler) (params : SearchParams) (token : String) :
    SearchParams × Bool :=
  let colonIndex := firstIndexOfChar token ':'
  if colonIndex ≤ 0 then (params, false)
  else
    let key := sliceStr token 0 colonIndex.toNat
    let value := sliceFrom token (colonIndex.toNat + 1)
    if key = "name" then ({ params with nameTerms := params.nameTerms ++ [value] }, true)
    else if key = "path" then ({ params with pathTerms := params.pathTerms ++ [value] }, true)
    else if key = "ext" then
      ({ params with exts := (parseListInput value).foldl setAdd params.exts }, true)
    else if key = "regex" then
      (match parseRegexToken compile value with
       | some r => ({ params with regex := some r }, true)
       | none => (params, true))
    else ({ params with terms := params.terms ++ [token] }, true)

/-- Embeds `parseSearchQuery`: whitespace-tokenize, lowercase, and fold every
token through the size / key / bare-term interpreters. -/
def parseSearchQuery (compile : RegexCompiler) (query : String) : SearchParams :=
  let tokens := (strSplit (strTrim query) Char.isWhitespace).filter (· ≠ "")
  tokens.foldl
    (fun params rawToken =>
      let token := strToLower rawToken
      let sizeStep := applySizeToken params token
      if sizeStep.2 then sizeStep.1
      else
        let keyStep := applyKeyToken compile params token
        if keyStep.2 then keyStep.1
        else { params with terms := params.terms ++ [token] })
    { terms := [], nameTerms := [], pathTerms := [], exts := [],
      regex := none, minSize := none, maxSize := none }

/-- Embeds `matchesAllTokens`: every non-empty token occurs in `value`. -/
def matchesAllTokens (value : String) (tokens : List String) : Bool :=
  tokens.all fun token => token = "" || strIncludes value token

/-- Embeds `matchesSearchTerms`: every non-empty bare term occurs in the name or
the path. -/
def matchesSearchTerms (name path : String) (terms : List String) : Bool :=
  terms.all fun term => term = "" || (strIncludes name term || strIncludes path term)

/-- Embeds `matchesSizeConstraints`. -/
def matchesSizeConstraints (sizeBytes : Nat) (minSize maxSize : Option Nat) : Bool :=
  (match minSize with
   | some m => decide (m ≤ sizeBytes)
   | none => true) &&
  (match maxSize with
   | some m => decide (sizeBytes ≤ m)
   | none => true)

/-- Embeds `matchesRegexConstraint`: a present regex must match the path or the
name. -/
def matchesRegexConstraint (name path : String) (regex : Option (String → Bool)) : Bool :=
  match regex with
  | none => true
  | some r => r path || r name

/-- Embeds `matchesSearchEntry`: the conjunction of all compiled query
constraints over the lowercased name and path. -/
def matchesSearchEntry (entry : SearchEntry) (params : SearchParams) : Bool :=
  let name := strToLower entry.name
  let path := strToLower entry.path
  if ¬ matchesAllTokens name params.nameTerms then false
  else if ¬ matchesAllTokens path params.pathTerms then false
  else if ¬ matchesSearchTerms name path params.terms then false
  else if params.exts.length > 0 &&
      (match getPathExtension path with
       | none => true
       | some ext => !(listHas params.exts ext)) then false
  else if ¬ matchesSizeConstraints entry.sizeBytes params.minSize params.maxSize then false
  else matchesRegexConstraint name path params.regex

/-- Embeds `ScanFilters`: the declarative structural filter specification. -/
structure ScanFilters where
  includeExtensions : List String
  excludeExtensions : List String
  includeNames : List String
  excludeNames : List String
  minSizeBytes : Option Nat
  maxSizeBytes : Option Nat
  includeRegex : Option String
  excludeRegex : Option String
  includePaths : List String
  excludePaths : List String

/-- Embeds `FilterMatchers`: the compiled form (`Set`s modelled as lists with
membership lookup, `RegExp`s as test functions). -/
structure FilterMatchers where
  includeExts : List String
  excludeExts : List String
  includeRegex : Option (String → Bool)
  excludeRegex : Option (String → Bool)
  includePaths : List String
  excludePaths : List String

/-- Embeds `buildFilterMatchers`. -/
def buildFilterMatchers (compile : RegexCompiler) (filters : ScanFilters) : FilterMatchers :=
  { includeExts := filters.includeExtensions
    excludeExts := filters.excludeExtensions
    includeRegex := parseRegexToken compile (filters.includeRegex.getD "")
    excludeRegex := parseRegexToken compile (filters.excludeRegex.getD "")
    includePaths := filters.includePaths
    excludePaths := filters.excludePaths }

/-- Embeds `pathContainsAny`: some non-empty value occurs in the path. -/
def pathContainsAny (path : String) (values : List String) : Bool :=
  values.any fun value => value ≠ "" && strIncludes path value

/-- Embeds `matchesPathFilters` (over the lowercased path). -/
def matchesPathFilters (path : String) (includePaths excludePaths : List String) : Bool :=
  let normalized := strToLower path
  if includePaths.length > 0 ∧ ¬ pathContainsAny normalized includePaths then false
  else if excludePaths.length > 0 ∧ pathContainsAny normalized excludePaths then false
  else true

/-- Embeds `matchesExtensionFilters`. -/
def matchesExtensionFilters (path : String) (includeExts excludeExts : List String) : Bool :=
  let ext := getPathExtension path
  if includeExts.length > 0 &&
      (match ext with
       | none => true
       | some e => !(listHas includeExts e)) then false
  else if excludeExts.length > 0 &&
      (match ext with
       | none => false
       | some e => listHas excludeExts e) then false
  else true

/-- Embeds `matchesRegexFilters`: an include regex must match path or name; an
exclude regex matching either rejects. -/
def matchesRegexFilters (path name : String)
    (includeRegex excludeRegex : Option (String → Bool)) : Bool :=
  (match includeRegex with
   | none => true
   | some r => r path || r name) &&
  (match excludeRegex with
   | none => true
   | some r => !(r path || r name))

/-- Embeds `ScanFile`: a materialized file leaf. -/
structure ScanFile where
  path : String
  name : String
  sizeBytes : Nat
deriving DecidableEq

/-- Embeds `matchesFilterFile`: the compiled structural filter applied to a file
(extension, path-substring, and regex categories over the lowercased
path / name). -/
def matchesFilterFile (file : ScanFile) (matchers : FilterMatchers) : Bool :=
  let path := strToLower file.path
  let name := strToLower file.name
  if ¬ matchesExtensionFilters path matchers.includeExts matchers.excludeExts then false
  else if ¬ matchesPathFilters path matchers.includePaths matchers.excludePaths then false
  else if ¬ matchesRegexFilters path name matchers.includeRegex matchers.excludeRegex then false
  else true

/-! ### Layout engine (`Treemap.tsx`)

Node sizes and rectangle coordinates are JS numbers; the claims ask for
exact arithmetic, so both are modelled over `ℚ`.  Only the fields the
layout reads (`path`, `name`, `sizeBytes`) are carried. -/

/-- A scan-tree node as seen by the layout engine. -/
structure ScanNode where
  path : String
  name : String
  sizeBytes : ℚ
deriving DecidableEq

/-- A placed rectangle (`Rect`). -/
structure Rect where
  x : ℚ
  y : ℚ
  w : ℚ
  h : ℚ
  node : ScanNode
deriving DecidableEq

/-- Embeds `sumNodeSizes`: accumulate the sizes left to right. -/
def sumNodeSizes (nodes : List ScanNode) : ℚ :=
  nodes.foldl (fun total node => total + node.sizeBytes) 0

/-- Embeds `sortBySize`: stable sort, descending by `sizeBytes`
(`[...nodes].sort((a, b) => b.sizeBytes - a.sizeBytes)`). -/
def sortBySize (nodes : List ScanNode) : List ScanNode :=
  nodes.mergeSort fun a b => decide (b.sizeBytes ≤ a.sizeBytes)

/-- Loop body of `getSplitIndex`: running sum `currentSum`, position `i`;
return `i + 1` at the first position where the running sum reaches half
the total, and `1` if the list is exhausted. -/
def getSplitIndexAux (total : ℚ) : List ScanNode → ℚ → Nat → Nat
  | [], _, _ => 1
  | node :: rest, currentSum, i =>
      let s := currentSum + node.sizeBytes
      if total / 2 ≤ s then i + 1 else getSplitIndexAux total rest s (i + 1)

/-- Embeds `getSplitIndex`. -/
def getSplitIndex (nodes : List ScanNode) (total : ℚ) : Nat :=
  getSplitIndexAux total nodes 0 0

lemma one_le_getSplitIndexAux (total : ℚ) :
    ∀ (nodes : List ScanNode) (c : ℚ) (i : Nat), 1 ≤ getSplitIndexAux total nodes c i := by
  intro nodes
  induction nodes with
  | nil => intro c i; simp [getSplitIndexAux]
  | cons node rest ih =>
      intro c i
      simp only [getSplitIndexAux]
      split
      · omega
      · exact ih _ _

lemma one_le_getSplitIndex (nodes : List ScanNode) (total : ℚ) :
    1 ≤ getSplitIndex nodes total :=
  one_le_getSplitIndexAux total nodes 0 0

/-- If the running sum reaches half the total within the first `k + 1`
elements, the returned index is at most `i + k + 1`. -/
lemma getSplitIndexAux_le (total : ℚ) :
    ∀ (nodes : List ScanNode) (c : ℚ) (i k : Nat), k < nodes.length →
      total / 2 ≤ c + (((nodes.take (k + 1)).map ScanNode.sizeBytes).sum) →
      getSplitIndexAux total nodes c i ≤ i + k + 1 := by
  intro nodes
  induction nodes with
  | nil => intro c i k hk; simp at hk
  | cons node rest ih =>
      intro c i k hk hsum
      simp only [getSplitIndexAux]
      split
      · omega
      · rename_i hlt
        match k with
        | 0 =>
            exfalso
            apply hlt
            simpa using hsum
        | k' + 1 =>
            have hk' : k' < rest.length := by simpa using hk
            have hsum' : total / 2 ≤ (c + node.sizeBytes) +
                (((rest.take (k' + 1)).map ScanNode.sizeBytes).sum) := by
              simp only [List.take_succ_cons, List.map_cons, List.sum_cons] at hsum
              linarith
            have := ih (c + node.sizeBytes) (i + 1) k' hk' hsum'
            omega

lemma sumNodeSizes_eq_mapSum (nodes : List ScanNode) :
    sumNodeSizes nodes = (nodes.map ScanNode.sizeBytes).sum := by
  have h : ∀ (l : List ScanNode) (a : ℚ),
      l.foldl (fun total node => total + node.sizeBytes) a = a + (l.map ScanNode.sizeBytes).sum := by
    intro l
    induction l with
    | nil => intro a; simp
    | cons x t ih => intro a; simp [List.foldl_cons, ih, add_assoc]
  simpa using h nodes 0

/-- Splitting never returns the whole list when there are at least two
nodes in descending order with positive total: some proper prefix reaches
half of the total. -/
lemma getSplitIndex_lt_length (nodes : List ScanNode)
    (hsorted : nodes.Pairwise fun a b => b.sizeBytes ≤ a.sizeBytes)
    (hlen : 2 ≤ nodes.length) (hpos : 0 < sumNodeSizes nodes) :
    getSplitIndex nodes (sumNodeSizes nodes) < nodes.length := by
  set t := sumNodeSizes nodes with ht
  rcases nodes with _ | ⟨a, rest⟩
  · simp at hlen
  obtain ⟨front, last, hconcat⟩ : ∃ front last, rest = front ++ [last] := by
    rcases rest.eq_nil_or_concat with hnil | ⟨front, last, hconcat⟩
    · subst hnil; simp at hlen
    · exact ⟨front, last, by simpa [List.concat_eq_append] using hconcat⟩
  subst hconcat
  have htake : (a :: (front ++ [last])).take ((a :: (front ++ [last])).length - 1)
      = a :: front := by
    have h1 : (a :: (front ++ [last])).length - 1 = (a :: front).length := by simp
    have h2 : a :: (front ++ [last]) = (a :: front) ++ [last] := by simp
    rw [h1, h2, List.take_left]
  by_cases hhalf : t / 2 ≤ (((a :: (front ++ [last])).take ((a :: (front ++ [last])).length - 1)).map
      ScanNode.sizeBytes).sum
  · have hk : (a :: (front ++ [last])).length - 2 < (a :: (front ++ [last])).length := by
      simp only [List.length_cons, List.length_append, List.length_singleton]
      omega
    have hbound := getSplitIndexAux_le t (a :: (front ++ [last])) 0 0
      ((a :: (front ++ [last])).length - 2) hk
    have hlen' : (a :: (front ++ [last])).length - 2 + 1 = (a :: (front ++ [last])).length - 1 := by
      simp only [List.length_cons, List.length_append, List.length_singleton]
      omega
    rw [hlen'] at hbound
    have hfin := hbound (by simpa using hhalf)
    have hlenpos : 1 ≤ (a :: (front ++ [last])).length := by simp
    simp only [getSplitIndex]
    omega
  · -- the last element alone exceeds half the total, hence so does the head
    push_neg at hhalf
    have hsum : t = ((a :: (front ++ [last])).map ScanNode.sizeBytes).sum := by
      rw [ht, sumNodeSizes_eq_mapSum]
    rw [htake] at hhalf
    have hlast_big : t / 2 < last.sizeBytes := by
      have hsplit : t = ((a :: front).map ScanNode.sizeBytes).sum + last.sizeBytes := by
        rw [hsum]; simp; ring
      linarith
    have hale : last.sizeBytes ≤ a.sizeBytes := by
      rcases List.pairwise_cons.mp hsorted with ⟨hb, _⟩
      exact hb last (by simp)
    have hhead : t / 2 ≤ (((a :: (front ++ [last])).take 1).map ScanNode.sizeBytes).sum := by
      simp only [List.take_succ_cons, List.take_zero, List.map_cons, List.map_nil,
        List.sum_cons, List.sum_nil, add_zero]
      linarith
    have hbound := getSplitIndexAux_le t (a :: (front ++ [last])) 0 0 0 (by simp) (by simpa using hhead)
    simp only [getSplitIndex]
    simp only [List.length_cons, List.length_append, List.length_singleton] at hbound ⊢
    omega

lemma sortBySize_perm (nodes : List ScanNode) : (sortBySize nodes).Perm nodes :=
  List.mergeSort_perm nodes _

lemma sortBySize_length (nodes : List ScanNode) : (sortBySize nodes).length = nodes.length :=
  (sortBySize_perm nodes).length_eq

lemma sortBySize_sorted (nodes : List ScanNode) :
    (sortBySize nodes).Pairwise fun a b => b.sizeBytes ≤ a.sizeBytes := by
  have h := @List.sorted_mergeSort ScanNode
    (fun a b : ScanNode => decide (b.sizeBytes ≤ a.sizeBytes))
    (fun a b c hab hbc => by
      simp only [decide_eq_true_eq] at *
      exact le_trans hbc hab)
    (fun a b => by
      simp only [Bool.or_eq_true, decide_eq_true_eq]
      exact le_total b.sizeBytes a.sizeBytes)
    nodes
  exact h.imp fun hab => by simpa using hab

lemma sumNodeSizes_sortBySize (nodes : List ScanNode) :
    sumNodeSizes (sortBySize nodes) = sumNodeSizes nodes := by
  rw [sumNodeSizes_eq_mapSum, sumNodeSizes_eq_mapSum]
  exact ((sortBySize_perm nodes).map ScanNode.sizeBytes).sum_eq

/-- The `splitIndex` local of `recursiveSplit` (split point of the sorted
list at half the total). -/
def rsSplitIndex (nodes : List ScanNode) : Nat :=
  getSplitIndex (sortBySize nodes) (sumNodeSizes (sortBySize nodes))

/-- The `groupA` local of `recursiveSplit`. -/
def rsGroupA (nodes : List ScanNode) : List ScanNode :=
  (sortBySize nodes).take (rsSplitIndex nodes)

/-- The `groupB` local of `recursiveSplit`. -/
def rsGroupB (nodes : List ScanNode) : List ScanNode :=
  (sortBySize nodes).drop (rsSplitIndex nodes)

/-- The `ratioA` local of `recursiveSplit` (`sizeA / total`). -/
def rsRatioA (nodes : List ScanNode) : ℚ :=
  sumNodeSizes (rsGroupA nodes) / sumNodeSizes (sortBySize nodes)

lemma rsGroupA_length_lt (nodes : List ScanNode) (hlen : 2 ≤ nodes.length)
    (hpos : ¬ sumNodeSizes (sortBySize nodes) ≤ 0) :
    (rsGroupA nodes).length < nodes.length := by
  have hsi := getSplitIndex_lt_length (sortBySize nodes) (sortBySize_sorted _)
    (by rwa [sortBySize_length]) (by push_neg at hpos; exact hpos)
  simp only [rsGroupA, rsSplitIndex, List.length_take, sortBySize_length] at *
  omega

lemma rsGroupB_length_lt (nodes : List ScanNode) (hlen : 2 ≤ nodes.length) :
    (rsGroupB nodes).length < nodes.length := by
  have hge := one_le_getSplitIndex (sortBySize nodes) (sumNodeSizes (sortBySize nodes))
  simp only [rsGroupB, rsSplitIndex, List.length_drop, sortBySize_length] at *
  omega

/-- Embeds `recursiveSplit`: slice-and-dice bisection.  An empty list yields no
rectangles; a single node takes the whole rectangle; otherwise the nodes
are sorted descending, dropped entirely if the total is non-positive, and
split at `getSplitIndex` with the wider axis divided at the size ratio.
The source's locals `splitIndex`, `groupA`, `groupB`, `ratioA` are the
definitions above; `wA = w * ratioA` and `hA = h * ratioA` are inlined. -/
def recursiveSplit : List ScanNode → ℚ → ℚ → ℚ → ℚ → List Rect
  | [], _, _, _, _ => []
  | [node], x, y, w, h => [⟨x, y, w, h, node⟩]
  | a :: b :: rest, x, y, w, h =>
      if sumNodeSizes (sortBySize (a :: b :: rest)) ≤ 0 then []
      else if h < w then
        recursiveSplit (rsGroupA (a :: b :: rest)) x y (w * rsRatioA (a :: b :: rest)) h ++
          recursiveSplit (rsGroupB (a :: b :: rest)) (x + w * rsRatioA (a :: b :: rest)) y
            (w - w * rsRatioA (a :: b :: rest)) h
      else
        recursiveSplit (rsGroupA (a :: b :: rest)) x y w (h * rsRatioA (a :: b :: rest)) ++
          recursiveSplit (rsGroupB (a :: b :: rest)) x (y + h * rsRatioA (a :: b :: rest)) w
            (h - h * rsRatioA (a :: b :: rest))
termination_by nodes _ _ _ _ => nodes.length
decreasing_by
  · exact rsGroupA_length_lt _ (by simp) (by assumption)
  · exact rsGroupB_length_lt _ (by simp)
  · exact rsGroupA_length_lt _ (by simp) (by assumption)
  · exact rsGroupB_length_lt _ (by simp)

/-! ### Geometry of placed rectangles -/

/-- A rectangle lies (closed) inside the axis-aligned box at `(x, y)` with
extent `(w, h)`. -/
def RectInside (r : Rect) (x y w h : ℚ) : Prop :=
  x ≤ r.x ∧ r.x + r.w ≤ x + w ∧ y ≤ r.y ∧ r.y + r.h ≤ y + h

/-- The point `(p, q)` lies in the closed box at `(x, y)` with extent
`(w, h)`. -/
def memClosed (p q x y w h : ℚ) : Prop :=
  x ≤ p ∧ p ≤ x + w ∧ y ≤ q ∧ q ≤ y + h

/-- The point `(p, q)` lies in the open interior of rectangle `r`. -/
def memOpenR (p q : ℚ) (r : Rect) : Prop :=
  r.x < p ∧ p < r.x + r.w ∧ r.y < q ∧ q < r.y + r.h

/-- Two rectangles do not overlap: their open interiors share no point. -/
def disjointInteriors (r₁ r₂ : Rect) : Prop :=
  ∀ p q : ℚ, ¬ (memOpenR p q r₁ ∧ memOpenR p q r₂)

/-- Full correctness package for one `recursiveSplit` call: the placed
rectangles carry exactly the input nodes, have positive extent, satisfy
the exact area proportion (in cross-multiplied form), stay inside the
input box, cover it, and are pairwise non-overlapping. -/
structure LayoutOk (nodes : List ScanNode) (x y w h : ℚ) (rects : List Rect) : Prop where
  perm : (rects.map Rect.node).Perm nodes
  dims : ∀ r ∈ rects, 0 < r.w ∧ 0 < r.h
  area : ∀ r ∈ rects, r.w * r.h * sumNodeSizes nodes = r.node.sizeBytes * (w * h)
  inside : ∀ r ∈ rects, RectInside r x y w h
  covers : ∀ p q : ℚ, memClosed p q x y w h → ∃ r ∈ rects, memClosed p q r.x r.y r.w r.h
  disj : rects.Pairwise disjointInteriors

lemma sumNodeSizes_append (l₁ l₂ : List ScanNode) :
    sumNodeSizes (l₁ ++ l₂) = sumNodeSizes l₁ + sumNodeSizes l₂ := by
  simp [sumNodeSizes_eq_mapSum]

lemma sumNodeSizes_pos (nodes : List ScanNode) (hne : nodes ≠ [])
    (hpos : ∀ nd ∈ nodes, 0 < nd.sizeBytes) : 0 < sumNodeSizes nodes := by
  rw [sumNodeSizes_eq_mapSum]
  rcases nodes with _ | ⟨a, rest⟩
  · exact absurd rfl hne
  · simp only [List.map_cons, List.sum_cons]
    have ha : 0 < a.sizeBytes := hpos a (by simp)
    have hrest : 0 ≤ (rest.map ScanNode.sizeBytes).sum := by
      apply List.sum_nonneg
      intro q hq
      rcases List.mem_map.mp hq with ⟨nd, hnd, rfl⟩
      exact le_of_lt (hpos nd (by simp [hnd]))
    linarith

/-- Glue two sub-layouts obtained by splitting the box vertically (wider
than tall): group A gets the left `wA` strip, group B the rest. -/
lemma LayoutOk.glue_h (nodesA nodesB nodesAll : List ScanNode) (x y w h wA : ℚ)
    (rectsA rectsB : List Rect)
    (hA : LayoutOk nodesA x y wA h rectsA)
    (hB : LayoutOk nodesB (x + wA) y (w - wA) h rectsB)
    (hperm : (nodesA ++ nodesB).Perm nodesAll)
    (hwAeq : wA * sumNodeSizes nodesAll = w * sumNodeSizes nodesA)
    (hsumA : 0 < sumNodeSizes nodesA) (hsumB : 0 < sumNodeSizes nodesB)
    (hwA : 0 < wA) (hwAw : wA < w) :
    LayoutOk nodesAll x y w h (rectsA ++ rectsB) := by
  have hsums : sumNodeSizes nodesA + sumNodeSizes nodesB = sumNodeSizes nodesAll := by
    rw [sumNodeSizes_eq_mapSum, sumNodeSizes_eq_mapSum, sumNodeSizes_eq_mapSum,
      ← (hperm.map ScanNode.sizeBytes).sum_eq]
    simp
  have hwBeq : (w - wA) * sumNodeSizes nodesAll = w * sumNodeSizes nodesB := by
    have : (w - wA) * sumNodeSizes nodesAll
        = w * sumNodeSizes nodesAll - wA * sumNodeSizes nodesAll := by ring
    rw [this, hwAeq, ← hsums]
    ring
  refine ⟨?_, ?_, ?_, ?_, ?_, ?_⟩
  · rw [List.map_append]
    exact (hA.perm.append hB.perm).trans hperm
  · intro r hr
    rcases List.mem_append.mp hr with hra | hrb
    · exact hA.dims r hra
    · exact hB.dims r hrb
  · intro r hr
    rcases List.mem_append.mp hr with hra | hrb
    · have harea := hA.area r hra
      apply mul_right_cancel₀ (ne_of_gt hsumA)
      calc r.w * r.h * sumNodeSizes nodesAll * sumNodeSizes nodesA
          = (r.w * r.h * sumNodeSizes nodesA) * sumNodeSizes nodesAll := by ring
        _ = (r.node.sizeBytes * (wA * h)) * sumNodeSizes nodesAll := by rw [harea]
        _ = r.node.sizeBytes * h * (wA * sumNodeSizes nodesAll) := by ring
        _ = r.node.sizeBytes * h * (w * sumNodeSizes nodesA) := by rw [hwAeq]
        _ = r.node.sizeBytes * (w * h) * sumNodeSizes nodesA := by ring
    · have harea := hB.area r hrb
      apply mul_right_cancel₀ (ne_of_gt hsumB)
      calc r.w * r.h * sumNodeSizes nodesAll * sumNodeSizes nodesB
          = (r.w * r.h * sumNodeSizes nodesB) * sumNodeSizes nodesAll := by ring
        _ = (r.node.sizeBytes * ((w - wA) * h)) * sumNodeSizes nodesAll := by rw [harea]
        _ = r.node.sizeBytes * h * ((w - wA) * sumNodeSizes nodesAll) := by ring
        _ = r.node.sizeBytes * h * (w * sumNodeSizes nodesB) := by rw [hwBeq]
        _ = r.node.sizeBytes * (w * h) * sumNodeSizes nodesB := by ring
  · intro r hr
    rcases List.mem_append.mp hr with hra | hrb
    · rcases hA.inside r hra with ⟨h1, h2, h3, h4⟩
      exact ⟨h1, by linarith, h3, h4⟩
    · rcases hB.inside r hrb with ⟨h1, h2, h3, h4⟩
      exact ⟨by linarith, by linarith, h3, h4⟩
  · intro p q hpq
    rcases hpq with ⟨h1, h2, h3, h4⟩
    by_cases hp : p ≤ x + wA
    · rcases hA.covers p q ⟨h1, hp, h3, h4⟩ with ⟨r, hr, hmem⟩
      exact ⟨r, List.mem_append.mpr (Or.inl hr), hmem⟩
    · push_neg at hp
      have hple : x + wA ≤ p := le_of_lt hp
      have hpr : p ≤ (x + wA) + (w - wA) := by linarith
      rcases hB.covers p q ⟨hple, hpr, h3, h4⟩ with ⟨r, hr, hmem⟩
      exact ⟨r, List.mem_append.mpr (Or.inr hr), hmem⟩
  · rw [List.pairwise_append]
    refine ⟨hA.disj, hB.disj, ?_⟩
    intro r₁ hr₁ r₂ hr₂ p q hpq
    rcases hpq with ⟨ho₁, ho₂⟩
    have hin₁ := hA.inside r₁ hr₁
    have hin₂ := hB.inside r₂ hr₂
    have hlt : p < x + wA := lt_of_lt_of_le ho₁.2.1 hin₁.2.1
    have hgt : x + wA ≤ r₂.x := hin₂.1
    have := ho₂.1
    linarith

/-- Glue two sub-layouts obtained by splitting the box horizontally (at
least as tall as wide): group A gets the top `hA` strip. -/
lemma LayoutOk.glue_v (nodesA nodesB nodesAll : List ScanNode) (x y w h hA' : ℚ)
    (rectsA rectsB : List Rect)
    (hA : LayoutOk nodesA x y w hA' rectsA)
    (hB : LayoutOk nodesB x (y + hA') w (h - hA') rectsB)
    (hperm : (nodesA ++ nodesB).Perm nodesAll)
    (hhAeq : hA' * sumNodeSizes nodesAll = h * sumNodeSizes nodesA)
    (hsumA : 0 < sumNodeSizes nodesA) (hsumB : 0 < sumNodeSizes nodesB)
    (hhA : 0 < hA') (hhAh : hA' < h) :
    LayoutOk nodesAll x y w h (rectsA ++ rectsB) := by
  have hsums : sumNodeSizes nodesA + sumNodeSizes nodesB = sumNodeSizes nodesAll := by
    rw [sumNodeSizes_eq_mapSum, sumNodeSizes_eq_mapSum, sumNodeSizes_eq_mapSum,
      ← (hperm.map ScanNode.sizeBytes).sum_eq]
    simp
  have hhBeq : (h - hA') * sumNodeSizes nodesAll = h * sumNodeSizes nodesB := by
    have : (h - hA') * sumNodeSizes nodesAll
        = h * sumNodeSizes nodesAll - hA' * sumNodeSizes nodesAll := by ring
    rw [this, hhAeq, ← hsums]
    ring
  refine ⟨?_, ?_, ?_, ?_, ?_, ?_⟩
  · rw [List.map_append]
    exact (hA.perm.append hB.perm).trans hperm
  · intro r hr
    rcases List.mem_append.mp hr with hra | hrb
    · exact hA.dims r hra
    · exact hB.dims r hrb
  · intro r hr
    rcases List.mem_append.mp hr with hra | hrb
    · have harea := hA.area r hra
      apply mul_right_cancel₀ (ne_of_gt hsumA)
      calc r.w * r.h * sumNodeSizes nodesAll * sumNodeSizes nodesA
          = (r.w * r.h * sumNodeSizes nodesA) * sumNodeSizes nodesAll := by ring
        _ = (r.node.sizeBytes * (w * hA')) * sumNodeSizes nodesAll := by rw [harea]
        _ = r.node.sizeBytes * w * (hA' * sumNodeSizes nodesAll) := by ring
        _ = r.node.sizeBytes * w * (h * sumNodeSizes nodesA) := by rw [hhAeq]
        _ = r.node.sizeBytes * (w * h) * sumNodeSizes nodesA := by ring
    · have harea := hB.area r hrb
      apply mul_right_cancel₀ (ne_of_gt hsumB)
      calc r.w * r.h * sumNodeSizes nodesAll * sumNodeSizes nodesB
          = (r.w * r.h * sumNodeSizes nodesB) * sumNodeSizes nodesAll := by ring
        _ = (r.node.sizeBytes * (w * (h - hA'))) * sumNodeSizes nodesAll := by rw [harea]
        _ = r.node.sizeBytes * w * ((h - hA') * sumNodeSizes nodesAll) := by ring
        _ = r.node.sizeBytes * w * (h * sumNodeSizes nodesB) := by rw [hhBeq]
        _ = r.node.sizeBytes * (w * h) * sumNodeSizes nodesB := by ring
  · intro r hr
    rcases List.mem_append.mp hr with hra | hrb
    · rcases hA.inside r hra with ⟨h1, h2, h3, h4⟩
      exact ⟨h1, h2, h3, by linarith⟩
    · rcases hB.inside r hrb with ⟨h1, h2, h3, h4⟩
      exact ⟨h1, h2, by linarith, by linarith⟩
  · intro p q hpq
    rcases hpq with ⟨h1, h2, h3, h4⟩
    by_cases hq : q ≤ y + hA'
    · rcases hA.covers p q ⟨h1, h2, h3, hq⟩ with ⟨r, hr, hmem⟩
      exact ⟨r, List.mem_append.mpr (Or.inl hr), hmem⟩
    · push_neg at hq
      have hqle : y + hA' ≤ q := le_of_lt hq
      have hqr : q ≤ (y + hA') + (h - hA') := by linarith
      rcases hB.covers p q ⟨h1, h2, hqle, hqr⟩ with ⟨r, hr, hmem⟩
      exact ⟨r, List.mem_append.mpr (Or.inr hr), hmem⟩
  · rw [List.pairwise_append]
    refine ⟨hA.disj, hB.disj, ?_⟩
    intro r₁ hr₁ r₂ hr₂ p q hpq
    rcases hpq with ⟨ho₁, ho₂⟩
    have hin₁ := hA.inside r₁ hr₁
    have hin₂ := hB.inside r₂ hr₂
    have hlt : q < y + hA' := lt_of_lt_of_le ho₁.2.2.2 hin₁.2.2.2
    have hgt : y + hA' ≤ r₂.y := hin₂.2.2.1
    have := ho₂.2.2.1
    linarith

/-- Main induction (on a length bound): `recursiveSplit` satisfies the
full layout package whenever every node has positive size and the box has
positive extent. -/
lemma recursiveSplit_layoutOk : ∀ (n : Nat) (nodes : List ScanNode) (x y w h : ℚ),
    nodes.length ≤ n → (∀ nd ∈ nodes, 0 < nd.sizeBytes) → nodes ≠ [] →
    0 < w → 0 < h → LayoutOk nodes x y w h (recursiveSplit nodes x y w h) := by
  intro n
  induction n with
  | zero =>
      intro nodes x y w h hlen _ hne _ _
      rcases nodes with _ | ⟨a, rest⟩
      · exact absurd rfl hne
      · simp at hlen
  | succ n ih =>
      intro nodes x y w h hlen hpos hne hw hh
      rcases nodes with _ | ⟨a, _ | ⟨b, rest⟩⟩
      · exact absurd rfl hne
      · -- singleton: the node takes the whole rectangle
        simp only [recursiveSplit.eq_2]
        have hsum : sumNodeSizes [a] = a.sizeBytes := by
          simp [sumNodeSizes]
        refine ⟨by simp, ?_, ?_, ?_, ?_, ?_⟩
        · intro r hr
          simp only [List.mem_singleton] at hr
          subst hr
          exact ⟨hw, hh⟩
        · intro r hr
          simp only [List.mem_singleton] at hr
          subst hr
          rw [hsum]
          ring
        · intro r hr
          simp only [List.mem_singleton] at hr
          subst hr
          exact ⟨le_refl _, le_refl _, le_refl _, le_refl _⟩
        · intro p q hpq
          exact ⟨⟨x, y, w, h, a⟩, by simp, hpq⟩
        · simp
      · -- at least two nodes: sort, split, recurse, glue
        have hperm_sorted : (sortBySize (a :: b :: rest)).Perm (a :: b :: rest) :=
          sortBySize_perm _
        have htotpos : 0 < sumNodeSizes (sortBySize (a :: b :: rest)) := by
          rw [sumNodeSizes_sortBySize]
          exact sumNodeSizes_pos _ (by simp) hpos
        have hnotle : ¬ sumNodeSizes (sortBySize (a :: b :: rest)) ≤ 0 := not_le.mpr htotpos
        have hsplit : rsGroupA (a :: b :: rest) ++ rsGroupB (a :: b :: rest)
            = sortBySize (a :: b :: rest) := List.take_append_drop _ _
        have hpermAB : (rsGroupA (a :: b :: rest) ++ rsGroupB (a :: b :: rest)).Perm
            (a :: b :: rest) := by
          rw [hsplit]
          exact hperm_sorted
        have hposA : ∀ nd ∈ rsGroupA (a :: b :: rest), 0 < nd.sizeBytes := fun nd hnd =>
          hpos nd (hperm_sorted.subset (List.take_subset _ _ hnd))
        have hposB : ∀ nd ∈ rsGroupB (a :: b :: rest), 0 < nd.sizeBytes := fun nd hnd =>
          hpos nd (hperm_sorted.subset (List.drop_subset _ _ hnd))
        have hsi_lt : rsSplitIndex (a :: b :: rest) < (a :: b :: rest).length := by
          have hbase := getSplitIndex_lt_length (sortBySize (a :: b :: rest))
            (sortBySize_sorted _) (by rw [sortBySize_length]; simp) htotpos
          rw [sortBySize_length] at hbase
          exact hbase
        have hsi_ge : 1 ≤ rsSplitIndex (a :: b :: rest) := one_le_getSplitIndex _ _
        have hlenA : (rsGroupA (a :: b :: rest)).length = rsSplitIndex (a :: b :: rest) := by
          rw [rsGroupA, List.length_take, sortBySize_length]
          omega
        have hlenB : (rsGroupB (a :: b :: rest)).length
            = (a :: b :: rest).length - rsSplitIndex (a :: b :: rest) := by
          rw [rsGroupB, List.length_drop, sortBySize_length]
        have hneA : rsGroupA (a :: b :: rest) ≠ [] := by
          apply List.length_pos.mp
          rw [hlenA]
          omega
        have hneB : rsGroupB (a :: b :: rest) ≠ [] := by
          apply List.length_pos.mp
          rw [hlenB]
          omega
        have hsumA : 0 < sumNodeSizes (rsGroupA (a :: b :: rest)) :=
          sumNodeSizes_pos _ hneA hposA
        have hsumB : 0 < sumNodeSizes (rsGroupB (a :: b :: rest)) :=
          sumNodeSizes_pos _ hneB hposB
        have hsums : sumNodeSizes (rsGroupA (a :: b :: rest))
            + sumNodeSizes (rsGroupB (a :: b :: rest))
            = sumNodeSizes (a :: b :: rest) := by
          rw [← sumNodeSizes_append, hsplit, sumNodeSizes_sortBySize]
        have hratio_eq : rsRatioA (a :: b :: rest)
            = sumNodeSizes (rsGroupA (a :: b :: rest)) / sumNodeSizes (a :: b :: rest) := by
          rw [rsRatioA, sumNodeSizes_sortBySize]
        have htotpos' : 0 < sumNodeSizes (a :: b :: rest) := by
          rw [← sumNodeSizes_sortBySize]
          exact htotpos
        have hratio_pos : 0 < rsRatioA (a :: b :: rest) := by
          rw [hratio_eq]
          exact div_pos hsumA htotpos'
        have hratio_lt_one : rsRatioA (a :: b :: rest) < 1 := by
          rw [hratio_eq]
          rw [div_lt_one htotpos']
          linarith
        have hratio_mul : rsRatioA (a :: b :: rest) * sumNodeSizes (a :: b :: rest)
            = sumNodeSizes (rsGroupA (a :: b :: rest)) := by
          rw [hratio_eq]
          exact div_mul_cancel₀ _ (ne_of_gt htotpos')
        have hlenA_le : (rsGroupA (a :: b :: rest)).length ≤ n := by
          have hlt := rsGroupA_length_lt (a :: b :: rest) (by simp) hnotle
          exact Nat.lt_succ_iff.mp (lt_of_lt_of_le hlt hlen)
        have hlenB_le : (rsGroupB (a :: b :: rest)).length ≤ n := by
          have hlt := rsGroupB_length_lt (a :: b :: rest) (by simp)
          exact Nat.lt_succ_iff.mp (lt_of_lt_of_le hlt hlen)
        rw [recursiveSplit.eq_3, if_neg hnotle]
        by_cases hwh : h < w
        · rw [if_pos hwh]
          have hwA_pos : 0 < w * rsRatioA (a :: b :: rest) := mul_pos hw hratio_pos
          have hwA_lt : w * rsRatioA (a :: b :: rest) < w := by
            have := mul_lt_mul_of_pos_left hratio_lt_one hw
            simpa using this
          have hwB_pos : 0 < w - w * rsRatioA (a :: b :: rest) := by linarith
          exact LayoutOk.glue_h _ _ _ x y w h _ _ _
            (ih (rsGroupA (a :: b :: rest)) x y (w * rsRatioA (a :: b :: rest)) h
              hlenA_le hposA hneA hwA_pos hh)
            (ih (rsGroupB (a :: b :: rest)) (x + w * rsRatioA (a :: b :: rest)) y
              (w - w * rsRatioA (a :: b :: rest)) h hlenB_le hposB hneB hwB_pos hh)
            hpermAB
            (by rw [mul_assoc, hratio_mul])
            hsumA hsumB hwA_pos hwA_lt
        · rw [if_neg hwh]
          have hhA_pos : 0 < h * rsRatioA (a :: b :: rest) := mul_pos hh hratio_pos
          have hhA_lt : h * rsRatioA (a :: b :: rest) < h := by
            have := mul_lt_mul_of_pos_left hratio_lt_one hh
            simpa using this
          have hhB_pos : 0 < h - h * rsRatioA (a :: b :: rest) := by linarith
          exact LayoutOk.glue_v _ _ _ x y w h _ _ _
            (ih (rsGroupA (a :: b :: rest)) x y w (h * rsRatioA (a :: b :: rest))
              hlenA_le hposA hneA hw hhA_pos)
            (ih (rsGroupB (a :: b :: rest)) x (y + h * rsRatioA (a :: b :: rest)) w
              (h - h * rsRatioA (a :: b :: rest)) hlenB_le hposB hneB hw hhB_pos)
            hpermAB
            (by rw [mul_assoc, hratio_mul])
            hsumA hsumB hhA_pos hhA_lt

/-- C1: for every non-empty list of children with strictly positive sizes
and every rectangle of positive width and height, `recursiveSplit` returns
exactly one rectangle per child (the placed nodes are a permutation of the
input), each rectangle's area fraction of the input rectangle equals that
child's share of the total size (exactly over `ℚ`), the union of the
returned rectangles is exactly the input rectangle, and the rectangles are
pairwise non-overlapping (disjoint interiors). -/
theorem recursiveSplit_layout_correct (nodes : List ScanNode) (x y w h : ℚ)
    (hpos : ∀ nd ∈ nodes, 0 < nd.sizeBytes) (hne : nodes ≠ []) (hw : 0 < w) (hh : 0 < h) :
    ((recursiveSplit nodes x y w h).map Rect.node).Perm nodes
    ∧ (∀ r ∈ recursiveSplit nodes x y w h,
        r.w * r.h / (w * h) = r.node.sizeBytes / sumNodeSizes nodes)
    ∧ (∀ p q : ℚ, memClosed p q x y w h ↔
        ∃ r ∈ recursiveSplit nodes x y w h, memClosed p q r.x r.y r.w r.h)
    ∧ (recursiveSplit nodes x y w h).Pairwise disjointInteriors := by
  have hok := recursiveSplit_layoutOk nodes.length nodes x y w h le_rfl hpos hne hw hh
  refine ⟨hok.perm, ?_, ?_, hok.disj⟩
  · intro r hr
    have htot : 0 < sumNodeSizes nodes := sumNodeSizes_pos _ hne hpos
    have hwh : (0 : ℚ) < w * h := mul_pos hw hh
    rw [div_eq_div_iff (ne_of_gt hwh) (ne_of_gt htot)]
    exact hok.area r hr
  · intro p q
    constructor
    · exact hok.covers p q
    · rintro ⟨r, hr, hmem⟩
      rcases hok.inside r hr with ⟨h1, h2, h3, h4⟩
      rcases hmem with ⟨m1, m2, m3, m4⟩
      exact ⟨le_trans h1 m1, le_trans m2 h2, le_trans h3 m3, le_trans m4 h4⟩

/-- C1 witness: the layout theorem applied to two children of sizes 1 and
3 in a 4 × 2 rectangle. -/
theorem recursiveSplit_layout_correct_witness :
    ((∀ nd ∈ [ScanNode.mk "/a" "a" 1, ScanNode.mk "/b" "b" 3], 0 < nd.sizeBytes)
      ∧ [ScanNode.mk "/a" "a" 1, ScanNode.mk "/b" "b" 3] ≠ [] ∧ (0 : ℚ) < 4 ∧ (0 : ℚ) < 2)
    ∧ (((recursiveSplit [ScanNode.mk "/a" "a" 1, ScanNode.mk "/b" "b" 3] 0 0 4 2).map
          Rect.node).Perm [ScanNode.mk "/a" "a" 1, ScanNode.mk "/b" "b" 3]
      ∧ (∀ r ∈ recursiveSplit [ScanNode.mk "/a" "a" 1, ScanNode.mk "/b" "b" 3] 0 0 4 2,
          r.w * r.h / ((4 : ℚ) * 2)
            = r.node.sizeBytes / sumNodeSizes [ScanNode.mk "/a" "a" 1, ScanNode.mk "/b" "b" 3])
      ∧ (∀ p q : ℚ, memClosed p q 0 0 4 2 ↔
          ∃ r ∈ recursiveSplit [ScanNode.mk "/a" "a" 1, ScanNode.mk "/b" "b" 3] 0 0 4 2,
            memClosed p q r.x r.y r.w r.h)
      ∧ (recursiveSplit [ScanNode.mk "/a" "a" 1, ScanNode.mk "/b" "b" 3] 0 0 4 2).Pairwise
          disjointInteriors) :=
  ⟨⟨by decide, by simp, by norm_num, by norm_num⟩,
   recursiveSplit_layout_correct [ScanNode.mk "/a" "a" 1, ScanNode.mk "/b" "b" 3] 0 0 4 2
     (by decide) (by simp) (by norm_num) (by norm_num)⟩

/-- C9: with at least two nodes and strictly positive total size, the
split index computed on the descending-sorted list lies strictly between
0 and the list length, so both recursive groups are strictly shorter than
the input list. -/
theorem getSplitIndex_strictly_between (nodes : List ScanNode)
    (hlen : 2 ≤ nodes.length) (hpos : 0 < sumNodeSizes nodes) :
    0 < getSplitIndex (sortBySize nodes) (sumNodeSizes (sortBySize nodes))
    ∧ getSplitIndex (sortBySize nodes) (sumNodeSizes (sortBySize nodes)) < nodes.length
    ∧ (rsGroupA nodes).length < nodes.length
    ∧ (rsGroupB nodes).length < nodes.length := by
  have h1 := one_le_getSplitIndex (sortBySize nodes) (sumNodeSizes (sortBySize nodes))
  have h2 := getSplitIndex_lt_length (sortBySize nodes) (sortBySize_sorted _)
    (by rwa [sortBySize_length]) (by rwa [sumNodeSizes_sortBySize])
  rw [sortBySize_length] at h2
  have h3 := rsGroupA_length_lt nodes hlen
    (not_le.mpr (by rwa [sumNodeSizes_sortBySize]))
  have h4 := rsGroupB_length_lt nodes hlen
  exact ⟨by omega, h2, h3, h4⟩

/-- C9 witness: the split-index bounds at two unit-size nodes. -/
theorem getSplitIndex_strictly_between_witness :
    (2 ≤ ([ScanNode.mk "/a" "a" 1, ScanNode.mk "/b" "b" 1] : List ScanNode).length
      ∧ 0 < sumNodeSizes [ScanNode.mk "/a" "a" 1, ScanNode.mk "/b" "b" 1])
    ∧ (0 < getSplitIndex (sortBySize [ScanNode.mk "/a" "a" 1, ScanNode.mk "/b" "b" 1])
          (sumNodeSizes (sortBySize [ScanNode.mk "/a" "a" 1, ScanNode.mk "/b" "b" 1]))
      ∧ getSplitIndex (sortBySize [ScanNode.mk "/a" "a" 1, ScanNode.mk "/b" "b" 1])
          (sumNodeSizes (sortBySize [ScanNode.mk "/a" "a" 1, ScanNode.mk "/b" "b" 1]))
          < ([ScanNode.mk "/a" "a" 1, ScanNode.mk "/b" "b" 1] : List ScanNode).length
      ∧ (rsGroupA [ScanNode.mk "/a" "a" 1, ScanNode.mk "/b" "b" 1]).length
          < ([ScanNode.mk "/a" "a" 1, ScanNode.mk "/b" "b" 1] : List ScanNode).length
      ∧ (rsGroupB [ScanNode.mk "/a" "a" 1, ScanNode.mk "/b" "b" 1]).length
          < ([ScanNode.mk "/a" "a" 1, ScanNode.mk "/b" "b" 1] : List ScanNode).length) :=
  ⟨⟨by simp, by simp [sumNodeSizes]⟩,
   getSplitIndex_strictly_between [ScanNode.mk "/a" "a" 1, ScanNode.mk "/b" "b" 1]
     (by simp) (by simp [sumNodeSizes])⟩

/-- C6 counterexample: a singleton list whose only child has size zero has
zero total size, yet `recursiveSplit` returns the full input rectangle for
it instead of the empty list (the single-node early return precedes the
zero-total check). -/
theorem recursiveSplit_singleton_zero_counterexample :
    sumNodeSizes [ScanNode.mk "/z" "z" 0] = 0
    ∧ recursiveSplit [ScanNode.mk "/z" "z" 0] 0 0 5 5
        = [Rect.mk 0 0 5 5 (ScanNode.mk "/z" "z" 0)] := by
  constructor
  · simp [sumNodeSizes]
  · rw [recursiveSplit]

/-- C6 (amended): a zero-total list yields no rectangles whenever it is
not a singleton; a singleton list — zero-size child included — is instead
returned the full input rectangle. -/
theorem recursiveSplit_zero_total (nodes : List ScanNode) (x y w h : ℚ)
    (hzero : sumNodeSizes nodes = 0) :
    recursiveSplit nodes x y w h
      = match nodes with
        | [node] => [Rect.mk x y w h node]
        | _ => [] := by
  rcases nodes with _ | ⟨a, _ | ⟨b, rest⟩⟩
  · rw [recursiveSplit]
  · rw [recursiveSplit]
  · show recursiveSplit (a :: b :: rest) x y w h = []
    rw [recursiveSplit.eq_3, if_pos]
    rw [sumNodeSizes_sortBySize, hzero]

/-- C6 witness: two zero-size children yield no rectangles. -/
theorem recursiveSplit_zero_total_witness :
    sumNodeSizes [ScanNode.mk "/p" "p" 0, ScanNode.mk "/q" "q" 0] = 0
    ∧ recursiveSplit [ScanNode.mk "/p" "p" 0, ScanNode.mk "/q" "q" 0] 0 0 5 5 = [] :=
  ⟨by simp [sumNodeSizes],
   recursiveSplit_zero_total [ScanNode.mk "/p" "p" 0, ScanNode.mk "/q" "q" 0] 0 0 5 5
     (by simp [sumNodeSizes])⟩

/-- C5: the compiled query `"size>10mb ext:png,jpg name:vacation"` matches
the 15 MB file `vacation_photo.png` at `/pics/vacation_photo.png` and does
not match a 15 MB file named `report.pdf` (the `ext:` constraint fails). -/
theorem searchQuery_example (compile : RegexCompiler) :
    matchesSearchEntry ⟨"vacation_photo.png", "/pics/vacation_photo.png", 15 * 1024 ^ 2⟩
      (parseSearchQuery compile "size>10mb ext:png,jpg name:vacation") = true
    ∧ matchesSearchEntry ⟨"report.pdf", "/docs/report.pdf", 15 * 1024 ^ 2⟩
      (parseSearchQuery compile "size>10mb ext:png,jpg name:vacation") = false :=
  ⟨rfl, rfl⟩

/-! ### Characterization of `getPathExtension` (for C10) -/

/-- Structural last-occurrence index of a character in a list. -/
def lastIdx (c : Char) : List Char → Option Nat
  | [] => none
  | d :: rest =>
      match lastIdx c rest with
      | some j => some (j + 1)
      | none => if d = c then some 0 else none

lemma lastIndexOfCharAux_eq (c : Char) : ∀ (cs : List Char) (i : Nat) (acc : Int),
    lastIndexOfCharAux c cs i acc
      = match lastIdx c cs with
        | some j => ((i + j : Nat) : Int)
        | none => acc := by
  intro cs
  induction cs with
  | nil => intro i acc; simp [lastIndexOfCharAux, lastIdx]
  | cons d rest ih =>
      intro i acc
      simp only [lastIndexOfCharAux, lastIdx, ih]
      rcases h : lastIdx c rest with _ | j
      · by_cases hd : d = c <;> simp [hd]
      · simp only []
        congr 1
        omega

lemma lastIndexOfChar_eq (s : String) (c : Char) :
    lastIndexOfChar s c
      = match lastIdx c s.toList with
        | some j => (j : Int)
        | none => -1 := by
  rw [lastIndexOfChar, lastIndexOfCharAux_eq]
  rcases lastIdx c s.toList with _ | j <;> simp

lemma lastIdx_eq_none_iff (c : Char) (cs : List Char) :
    lastIdx c cs = none ↔ c ∉ cs := by
  induction cs with
  | nil => simp [lastIdx]
  | cons d rest ih =>
      simp only [lastIdx]
      rcases h : lastIdx c rest with _ | j
      · rw [h] at ih
        by_cases hd : d = c
        · subst hd
          simp
        · simp [hd, Ne.symm hd, ih.mp rfl]
      · have : c ∈ rest := by
          by_contra hmem
          rw [← ih] at hmem
          rw [h] at hmem
          exact Option.some_ne_none j hmem
        simp [this]

lemma lastIdx_eq_some_iff (c : Char) : ∀ (cs : List Char) (j : Nat),
    lastIdx c cs = some j ↔
      ∃ pre post, cs = pre ++ c :: post ∧ pre.length = j ∧ c ∉ post := by
  intro cs
  induction cs with
  | nil =>
      intro j
      constructor
      · intro h; simp [lastIdx] at h
      · rintro ⟨pre, post, hsplit, -, -⟩
        exact absurd hsplit (by simp)
  | cons d rest ih =>
      intro j
      simp only [lastIdx]
      rcases h : lastIdx c rest with _ | j'
      · -- no occurrence in the tail
        have hnot : c ∉ rest := (lastIdx_eq_none_iff c rest).mp h
        by_cases hd : d = c
        · rw [if_pos hd]
          constructor
          · intro hj
            rcases Option.some_injective _ hj with rfl
            exact ⟨[], rest, by simp [hd], rfl, hnot⟩
          · rintro ⟨pre, post, hsplit, hlen, hpost⟩
            rcases pre with _ | ⟨p, pre'⟩
            · simp only [List.length_nil] at hlen
              rw [← hlen]
            · exfalso
              simp only [List.cons_append, List.cons.injEq] at hsplit
              have hcrest : c ∈ pre' ++ c :: post := List.mem_append_right pre' (by simp)
              rw [← hsplit.2] at hcrest
              exact hnot hcrest
        · rw [if_neg hd]
          constructor
          · intro hcontra; exact absurd hcontra (by simp)
          · rintro ⟨pre, post, hsplit, hlen, hpost⟩
            rcases pre with _ | ⟨p, pre'⟩
            · simp at hsplit
              exact absurd hsplit.1 hd
            · exfalso
              simp only [List.cons_append, List.cons.injEq] at hsplit
              have hcrest : c ∈ pre' ++ c :: post := List.mem_append_right pre' (by simp)
              rw [← hsplit.2] at hcrest
              exact hnot hcrest
      · -- the tail has its last occurrence at `j'`
        rcases (ih j').mp h with ⟨pre', post', hsplit', hlen', hpost'⟩
        constructor
        · intro hj
          rcases Option.some_injective _ hj with rfl
          exact ⟨d :: pre', post', by simp [hsplit'], by simp [hlen'], hpost'⟩
        · rintro ⟨pre, post, hsplit, hlen, hpost⟩
          rcases pre with _ | ⟨p, pre''⟩
          · exfalso
            simp only [List.nil_append, List.cons.injEq] at hsplit
            have hcrest : c ∈ rest := by
              rw [hsplit']
              exact List.mem_append_right _ (by simp)
            rw [hsplit.2] at hcrest
            exact hpost hcrest
          · simp only [List.cons_append, List.cons.injEq] at hsplit
            have htail : lastIdx c rest = some pre''.length :=
              (ih pre''.length).mpr ⟨pre'', post, hsplit.2, rfl, hpost⟩
            rw [h] at htail
            rcases Option.some_injective _ htail with hj'
            simp only [List.length_cons] at hlen
            have hjj : j' + 1 = j := by omega
            show some (j' + 1) = some j
            rw [hjj]

/-- C10: `getPathExtension` returns exactly the lowercased text after the
last dot of the whole path (`some` precisely when that dot is neither at
index 0 nor final), so the file `/data.d/readme` — whose own name has no
dot but whose ancestor directory does — is assigned the pseudo-extension
`d/readme` containing a path separator, and both the structural extension
filter and the `ext:` search constraint treat it as having that
pseudo-extension rather than no extension. -/
theorem getPathExtension_spec :
    (∀ (path ext : String),
      getPathExtension path = some ext ↔
        ∃ pre post, path.toList = pre ++ '.' :: post ∧ pre ≠ [] ∧ post ≠ [] ∧ '.' ∉ post
          ∧ ext = String.mk (post.map Char.toLower))
    ∧ getPathExtension "/data.d/readme" = some "d/readme"
    ∧ matchesExtensionFilters "/data.d/readme" ["d/readme"] [] = true
    ∧ matchesExtensionFilters "/data.d/readme" ["txt"] [] = false
    ∧ (∀ compile : RegexCompiler,
        matchesSearchEntry ⟨"readme", "/data.d/readme", 10⟩
          (parseSearchQuery compile "ext:d/readme") = true
        ∧ matchesSearchEntry ⟨"readme", "/data.d/readme", 10⟩
          (parseSearchQuery compile "ext:readme") = false) := by
  refine ⟨?_, by decide, by decide, by decide, fun compile => ⟨rfl, rfl⟩⟩
  intro path ext
  have hlen : path.length = path.toList.length := rfl
  rcases h : lastIdx '.' path.toList with _ | j
  · -- no dot at all: result is `none` and no decomposition exists
    have hres : getPathExtension path = none := by
      rw [getPathExtension]
      simp only [lastIndexOfChar_eq, h]
      norm_num
    rw [hres]
    constructor
    · intro hcontra; exact absurd hcontra (by simp)
    · rintro ⟨pre, post, hsplit, -, -, -, -⟩
      exfalso
      have : '.' ∈ path.toList := hsplit ▸ List.mem_append_right _ (by simp)
      exact (lastIdx_eq_none_iff '.' path.toList).mp h this
  · rcases (lastIdx_eq_some_iff '.' path.toList j).mp h with ⟨pre, post, hsplit, hlenpre, hpost⟩
    have hcslen : path.toList.length = j + 1 + post.length := by
      rw [hsplit]
      simp only [List.length_append, List.length_cons, hlenpre]
      omega
    have hdrop : path.toList.drop (j + 1) = post := by
      have hpre1 : (pre ++ ['.']).length = j + 1 := by simp [hlenpre]
      rw [hsplit, show pre ++ '.' :: post = (pre ++ ['.']) ++ post by simp,
        ← hpre1, List.drop_left]
    have huniq : ∀ pre' post', path.toList = pre' ++ '.' :: post' → '.' ∉ post' →
        pre' = pre ∧ post' = post := by
      intro pre' post' hsplit' hpost'
      have h2 : lastIdx '.' path.toList = some pre'.length :=
        (lastIdx_eq_some_iff '.' path.toList pre'.length).mpr ⟨pre', post', hsplit', rfl, hpost'⟩
      rw [h] at h2
      have hlen' : pre'.length = j := by
        rcases Option.some_injective _ h2 with h3
        omega
      have happ : pre' ++ '.' :: post' = pre ++ '.' :: post := by rw [← hsplit', ← hsplit]
      have hlen2 : pre'.length = pre.length := by rw [hlen', hlenpre]
      rcases List.append_inj happ hlen2 with ⟨hpre_eq, hrest_eq⟩
      exact ⟨hpre_eq, by simpa using hrest_eq⟩
    by_cases hcond : j = 0 ∨ j = path.toList.length - 1
    · -- dot at index 0 or final: result `none`, and the decomposition
      -- would force the opposite
      have hres : getPathExtension path = none := by
        rw [getPathExtension]
        simp only [lastIndexOfChar_eq, h]
        rw [if_pos]
        rcases hcond with h0 | hend
        · left; simp [h0]
        · right
          rw [hlen]
          omega
      rw [hres]
      constructor
      · intro hcontra; exact absurd hcontra (by simp)
      · rintro ⟨pre', post', hsplit', hpre', hpost'ne, hpostdot', -⟩
        exfalso
        rcases huniq pre' post' hsplit' hpostdot' with ⟨hpe, hpo⟩
        subst hpe
        subst hpo
        rcases hcond with h0 | hend
        · exact hpre' (List.length_eq_zero.mp (hlenpre.trans h0))
        · apply hpost'ne
          apply List.length_eq_zero.mp
          omega
    · push_neg at hcond
      have hres : getPathExtension path
          = some (String.mk ((path.toList.drop (j + 1)).map Char.toLower)) := by
        rw [getPathExtension]
        simp only [lastIndexOfChar_eq, h]
        rw [if_neg]
        · rfl
        · push_neg
          constructor
          · have : 0 < j := Nat.pos_of_ne_zero hcond.1
            omega
          · rw [hlen]
            intro hcontra
            apply hcond.2
            omega
      rw [hres, hdrop]
      constructor
      · intro hsome
        rcases Option.some_injective _ hsome with rfl
        refine ⟨pre, post, hsplit, ?_, ?_, hpost, rfl⟩
        · intro hnil
          exact hcond.1 (by rw [← hlenpre, hnil]; rfl)
        · intro hnil
          apply hcond.2
          rw [hcslen, hnil]
          simp
      · rintro ⟨pre', post', hsplit', -, -, hpostdot', hext⟩
        rcases huniq pre' post' hsplit' hpostdot' with ⟨hpe, hpo⟩
        subst hpe
        subst hpo
        rw [hext]

/-! ### Logical reading of the structural filter (for C2)

The following three predicates state, in the spec's terms, what it means
for an entry to satisfy the extension, path-substring, and regex
constraint categories (include sets OR'd internally, any exclude match
rejecting outright).  They are compared against the compiled predicate
`buildFilterMatchers` / `matchesFilterFile`. -/

/-- The entry's extension (of the given normalized path) passes the
include set (any one listed extension suffices, a missing extension fails
a non-empty include set) and matches no excluded extension. -/
def extensionConstraintsOk (includeExts excludeExts : List String) (path : String) : Prop :=
  (includeExts ≠ [] → ∃ e, getPathExtension path = some e ∧ e ∈ includeExts)
  ∧ ¬ ∃ e, getPathExtension path = some e ∧ e ∈ excludeExts

/-- The normalized path contains some non-empty include substring (when
any are supplied) and no non-empty exclude substring. -/
def pathConstraintsOk (includePaths excludePaths : List String) (path : String) : Prop :=
  (includePaths ≠ [] → ∃ v ∈ includePaths, v ≠ "" ∧ strIncludes path v = true)
  ∧ ¬ ∃ v ∈ excludePaths, v ≠ "" ∧ strIncludes path v = true

/-- A supplied include regex matches the path or the name; a supplied
exclude regex matches neither. -/
def regexConstraintsOk (includeRegex excludeRegex : Option (String → Bool))
    (path name : String) : Prop :=
  (∀ r, includeRegex = some r → (r path || r name) = true)
  ∧ (∀ r, excludeRegex = some r → (r path || r name) = false)

lemma listHas_iff (l : List String) (x : String) : listHas l x = true ↔ x ∈ l := by
  simp [listHas]

lemma matchesExtensionFilters_iff (path : String) (inc exc : List String) :
    matchesExtensionFilters path inc exc = true ↔ extensionConstraintsOk inc exc path := by
  rw [matchesExtensionFilters, extensionConstraintsOk]
  rcases hext : getPathExtension path with _ | e
  · constructor
    · intro hmatch
      by_cases hinc : inc.length > 0
      · simp [hinc] at hmatch
      · have : inc = [] := by
          rcases inc with _ | _
          · rfl
          · simp at hinc
        simp [this]
    · rintro ⟨h1, -⟩
      by_cases hinc : inc = []
      · subst hinc
        simp
      · rcases h1 hinc with ⟨e, he, -⟩
        exact absurd he (by simp)
  · by_cases hin : e ∈ inc
    · by_cases hout : e ∈ exc
      · have hx : listHas exc e = true := (listHas_iff exc e).mpr hout
        have hexc : exc.length > 0 := by
          rcases exc with _ | _
          · simp at hout
          · simp
        constructor
        · intro hmatch
          simp [hx, hexc] at hmatch
        · rintro ⟨-, h2⟩
          exact absurd ⟨e, rfl, hout⟩ h2
      · have hx : listHas inc e = true := (listHas_iff inc e).mpr hin
        have hx' : listHas exc e = false := by
          rcases h : listHas exc e
          · rfl
          · exact absurd ((listHas_iff exc e).mp h) hout
        constructor
        · intro _
          refine ⟨fun _ => ⟨e, rfl, hin⟩, ?_⟩
          rintro ⟨e', he', hmem⟩
          rcases Option.some_injective _ he' with rfl
          exact hout hmem
        · intro _
          simp [hx, hx']
    · have hx : listHas inc e = false := by
        rcases h : listHas inc e
        · rfl
        · exact absurd ((listHas_iff inc e).mp h) hin
      by_cases hinc : inc.length > 0
      · constructor
        · intro hmatch
          simp [hx, hinc] at hmatch
        · rintro ⟨h1, -⟩
          exfalso
          have hne : inc ≠ [] := by
            intro hcontra
            rw [hcontra] at hinc
            simp at hinc
          rcases h1 hne with ⟨e', he', hmem⟩
          rcases Option.some_injective _ he' with rfl
          exact hin hmem
      · have hinc0 : inc = [] := by
          rcases inc with _ | _
          · rfl
          · simp at hinc
        subst hinc0
        by_cases hout : e ∈ exc
        · have hx2 : listHas exc e = true := (listHas_iff exc e).mpr hout
          have hexc : exc.length > 0 := by
            rcases exc with _ | _
            · simp at hout
            · simp
          constructor
          · intro hmatch
            simp [hx2, hexc] at hmatch
          · rintro ⟨-, h2⟩
            exact absurd ⟨e, rfl, hout⟩ h2
        · have hx2 : listHas exc e = false := by
            rcases h : listHas exc e
            · rfl
            · exact absurd ((listHas_iff exc e).mp h) hout
          constructor
          · intro _
            refine ⟨fun hcontra => absurd rfl hcontra, ?_⟩
            rintro ⟨e', he', hmem⟩
            rcases Option.some_injective _ he' with rfl
            exact hout hmem
          · intro _
            simp [hx2]

lemma pathContainsAny_iff (path : String) (values : List String) :
    pathContainsAny path values = true ↔
      ∃ v ∈ values, v ≠ "" ∧ strIncludes path v = true := by
  simp [pathContainsAny]

lemma matchesPathFilters_iff (path : String) (inc exc : List String) :
    matchesPathFilters path inc exc = true ↔ pathConstraintsOk inc exc (strToLower path) := by
  rw [matchesPathFilters, pathConstraintsOk]
  by_cases hincAny : pathContainsAny (strToLower path) inc = true
  · by_cases hexcAny : pathContainsAny (strToLower path) exc = true
    · have hexcne : exc.length > 0 := by
        rcases (pathContainsAny_iff _ _).mp hexcAny with ⟨v, hv, -, -⟩
        rcases exc with _ | _
        · simp at hv
        · simp
      constructor
      · intro hmatch
        simp [hincAny, hexcAny, hexcne] at hmatch
      · rintro ⟨-, h2⟩
        exact absurd ((pathContainsAny_iff _ _).mp hexcAny) h2
    · constructor
      · intro _
        refine ⟨fun _ => (pathContainsAny_iff _ _).mp hincAny, ?_⟩
        intro hcontra
        exact hexcAny ((pathContainsAny_iff _ _).mpr hcontra)
      · intro _
        have hexcF : pathContainsAny (strToLower path) exc = false := by
          rcases h : pathContainsAny (strToLower path) exc
          · rfl
          · exact absurd h hexcAny
        simp [hincAny, hexcF]
  · have hincF : pathContainsAny (strToLower path) inc = false := by
      rcases h : pathContainsAny (strToLower path) inc
      · rfl
      · exact absurd h hincAny
    by_cases hinc : inc.length > 0
    · constructor
      · intro hmatch
        simp [hincF, hinc] at hmatch
      · rintro ⟨h1, -⟩
        exfalso
        have hne : inc ≠ [] := by
          intro hcontra
          rw [hcontra] at hinc
          simp at hinc
        exact hincAny ((pathContainsAny_iff _ _).mpr (h1 hne))
    · have hinc0 : inc = [] := by
        rcases inc with _ | _
        · rfl
        · simp at hinc
      subst hinc0
      by_cases hexcAny : pathContainsAny (strToLower path) exc = true
      · have hexcne : exc.length > 0 := by
          rcases (pathContainsAny_iff _ _).mp hexcAny with ⟨v, hv, -, -⟩
          rcases exc with _ | _
          · simp at hv
          · simp
        constructor
        · intro hmatch
          simp [hexcAny, hexcne] at hmatch
        · rintro ⟨-, h2⟩
          exact absurd ((pathContainsAny_iff _ _).mp hexcAny) h2
      · have hexcF : pathContainsAny (strToLower path) exc = false := by
          rcases h : pathContainsAny (strToLower path) exc
          · rfl
          · exact absurd h hexcAny
        constructor
        · intro _
          refine ⟨fun hcontra => absurd rfl hcontra, ?_⟩
          intro hcontra
          exact hexcAny ((pathContainsAny_iff _ _).mpr hcontra)
        · intro _
          simp [hexcF]

lemma matchesRegexFilters_iff (path name : String) (ir er : Option (String → Bool)) :
    matchesRegexFilters path name ir er = true ↔ regexConstraintsOk ir er path name := by
  rw [matchesRegexFilters.eq_def, regexConstraintsOk]
  rcases ir with _ | r₁ <;> rcases er with _ | r₂ <;>
    simp [Bool.and_eq_true, Bool.not_eq_true']

/-- C2 counterexample: a filter spec demanding the name substring
`vacation` and a minimum size of 1000000 bytes still accepts (via the
compiled structural predicate) a 5-byte file named `report.pdf` that
violates both, because `buildFilterMatchers` / `matchesFilterFile` never
consult the name-substring or size fields. -/
theorem matchesFilterFile_counterexample :
    matchesFilterFile ⟨"/docs/report.pdf", "report.pdf", 5⟩
      (buildFilterMatchers (fun _ _ => none)
        ⟨[], [], ["vacation"], [], some 1000000, none, none, none, [], []⟩) = true
    ∧ strIncludes "report.pdf" "vacation" = false
    ∧ (5 : Nat) < 1000000 :=
  ⟨by decide, by decide, by decide⟩

/-- C2 (amended): the compiled structural filter accepts a file iff the
extension, path-substring, and regex constraint categories are all
satisfied (include sets OR'd internally, any exclude match rejecting the
file outright); the include/exclude name substrings and the minimum and
maximum size bounds of the filter spec are not consulted — the result is
unchanged under any values of those four fields. -/
theorem matchesFilterFile_characterization (compile : RegexCompiler)
    (filters : ScanFilters) (f : ScanFile) :
    (matchesFilterFile f (buildFilterMatchers compile filters) = true ↔
      extensionConstraintsOk filters.includeExtensions filters.excludeExtensions
          (strToLower f.path)
        ∧ pathConstraintsOk filters.includePaths filters.excludePaths
            (strToLower (strToLower f.path))
        ∧ regexConstraintsOk (parseRegexToken compile (filters.includeRegex.getD ""))
            (parseRegexToken compile (filters.excludeRegex.getD ""))
            (strToLower f.path) (strToLower f.name))
    ∧ (∀ (names₁ names₂ : List String) (m₁ m₂ : Option Nat),
        matchesFilterFile f (buildFilterMatchers compile
          { filters with includeNames := names₁, excludeNames := names₂,
                         minSizeBytes := m₁, maxSizeBytes := m₂ })
          = matchesFilterFile f (buildFilterMatchers compile filters)) := by
  constructor
  · rw [matchesFilterFile, buildFilterMatchers]
    by_cases hext : matchesExtensionFilters (strToLower f.path)
        filters.includeExtensions filters.excludeExtensions = true
    · by_cases hpath : matchesPathFilters (strToLower f.path)
          filters.includePaths filters.excludePaths = true
      · by_cases hregex : matchesRegexFilters (strToLower f.path) (strToLower f.name)
            (parseRegexToken compile (filters.includeRegex.getD ""))
            (parseRegexToken compile (filters.excludeRegex.getD "")) = true
        · simp only [hext, hpath, hregex, not_true, if_false, if_neg]
          simp only [matchesExtensionFilters_iff] at hext
          simp only [matchesPathFilters_iff] at hpath
          simp only [matchesRegexFilters_iff] at hregex
          simp [hext, hpath, hregex]
        · simp only [hext, hpath, hregex]
          rw [matchesRegexFilters_iff] at hregex
          simp [hregex]
      · simp only [hext, hpath]
        rw [matchesPathFilters_iff] at hpath
        simp [hpath]
    · simp only [hext]
      rw [matchesExtensionFilters_iff] at hext
      simp [hext]
  · intro names₁ names₂ m₁ m₂
    rfl

/-! ### Remote list request / response bookkeeping (for C3, C4)

Embedded from the scan page component's remote handling: the refs
(`remoteListRequestIdRef`, `remoteListRequestMapRef`,
`remoteListTimeoutsRef`) and React state cells become fields of one
record; `requestRemoteListing`, the `list-complete` branch of
`handleRemoteEvent`, and the 5-second watchdog callback become state
transformers.  JS `Map`s are association lists (insertion order kept),
string-or-null values are `Option String`, and JS truthiness of a
string-or-null is `isTruthy`. -/

/-- Truthiness of a JS `string | null | undefined` value. -/
def isTruthy : Option String → Bool
  | some v => v ≠ ""
  | none => false

/-- The `??` (nullish-coalescing) operator. -/
def jsOr (a b : Option String) : Option String :=
  match a with
  | some v => some v
  | none => b

/-- Association-list lookup (JS `Map.get` / object indexing). -/
def listLookup {α : Type} (l : List (String × α)) (k : String) : Option α :=
  (l.find? fun p => p.1 = k).map fun p => p.2

/-- Association-list upsert (JS `Map.set` / object spread update): replace
in place when the key exists, append otherwise. -/
def listUpsert {α : Type} (l : List (String × α)) (k : String) (v : α) : List (String × α) :=
  if l.any (fun p => p.1 = k) then l.map fun p => if p.1 = k then (k, v) else p
  else l ++ [(k, v)]

/-- Association-list removal (JS `Map.delete` / key removal). -/
def listRemove {α : Type} (l : List (String × α)) (k : String) : List (String × α) :=
  l.filter fun p => !(p.1 = k)

/-- Remove a pending-timeout id. -/
def removeId (l : List String) (x : String) : List String :=
  l.filter fun y => !(y = x)

/-- Add a set element if absent (JS `Set.add`). -/
def addId (l : List String) (x : String) : List String :=
  if l.any (fun y => y = x) then l else l ++ [x]

/-- Embeds `RemoteTreeNode`. -/
structure RemoteTreeNode where
  path : String
  name : String
  isDir : Bool
  children : Option (List String)
  loading : Bool
  error : Option String
deriving DecidableEq

/-- A directory entry of a `list-complete` payload. -/
structure RemoteEntry where
  path : String
  name : String
  isDir : Bool
deriving DecidableEq

/-- Embeds `RemoteListPayload` (fields the handler reads). -/
structure RemoteListPayload where
  entries : List RemoteEntry
  os : Option String
  path : Option String
deriving DecidableEq

/-- A `list-complete` event as seen by `handleRemoteEvent`. -/
structure ListCompletePayload where
  id : Option String
  data : Option RemoteListPayload
deriving DecidableEq

/-- The client-side state touched by the remote listing flow. -/
structure RemoteListState where
  remoteSyncEnabled : Bool
  isRemoteConnected : Bool
  listRequestId : Option String
  requestMap : List (String × Option String)
  timeouts : List String
  remoteOs : Option String
  focusPath : Option String
  tree : List (String × RemoteTreeNode)
  treeRoots : List String
  treeExpanded : List String
  listLoading : Bool
  listError : Option String
deriving DecidableEq

/-- Embeds `getRemoteNodeName`: `/` stays `/`; otherwise strip trailing
separators and take the last non-empty segment, falling back to the whole
path. -/
def getRemoteNodeName (path : String) : String :=
  if path = "/" then "/"
  else
    let trimmed :=
      String.mk ((path.toList.reverse.dropWhile fun c => c = '/' || c = '\\').reverse)
    let parts := (strSplit trimmed fun c => c = '/' || c = '\\').filter (· ≠ "")
    match parts.getLast? with
    | some p => p
    | none => path

/-- Embeds `requestRemoteListing` (state part): register the correlation id as
the most recent request, record it in the pending map, mark the target
node (or the top level) as loading, and arm the 5-second watchdog. -/
def requestRemoteListing (path : Option String) (requestId : String)
    (s : RemoteListState) : RemoteListState :=
  if !s.remoteSyncEnabled then { s with listError := some "Remote sync is disabled." }
  else if !s.isRemoteConnected then { s with listError := some "No remote server connected." }
  else
    let isTopLevelRequest := !isTruthy path
    let s₁ := { s with listRequestId := some requestId,
                       requestMap := listUpsert s.requestMap requestId path,
                       timeouts := removeId s.timeouts requestId }
    let s₂ := if isTopLevelRequest then { s₁ with listLoading := true, listError := none } else s₁
    let s₃ := { s₂ with focusPath := path }
    let s₄ :=
      match path with
      | some p =>
          if p ≠ "" then
            let sExp := { s₃ with treeExpanded := addId s₃.treeExpanded p }
            match listLookup sExp.tree p with
            | none =>
                { sExp with tree := listUpsert sExp.tree p (⟨p, getRemoteNodeName p, true, none, true, none⟩ : RemoteTreeNode) }
            | some existing =>
                { sExp with tree := listUpsert sExp.tree p ({ existing with loading := true, error := none }) }
          else s₃
      | none => s₃
    { s₄ with timeouts := s₄.timeouts ++ [requestId] }

/-- The `list-complete` branch of `handleRemoteEvent`. -/
def handleListComplete (payload : ListCompletePayload) (s : RemoteListState) :
    RemoteListState :=
  if !s.remoteSyncEnabled then s
  else if (match payload.id, s.listRequestId with
           | some pid, some lid => pid != lid
           | _, _ => false) then s
  else
    match payload.data with
    | none => { s with listLoading := false, listError := none }
    | some data =>
        let s₁ :=
          match data.os with
          | some os => if os ≠ "" then { s with remoteOs := some os } else s
          | none => s
        let requestPath : Option String :=
          match payload.id with
          | some pid => (listLookup s₁.requestMap pid).getD none
          | none => none
        let isWindows := data.os = some "windows"
        let normalizedListPath := if isWindows ∧ data.path = some "/" then none else data.path
        let listPath := jsOr normalizedListPath requestPath
        let s₂ := { s₁ with focusPath := listPath }
        let s₃ :=
          match payload.id with
          | some pid => { s₂ with requestMap := listRemove s₂.requestMap pid,
                                  timeouts := removeId s₂.timeouts pid }
          | none => s₂
        let childPaths := data.entries.map fun entry => entry.path
        let treeAfterEntries := data.entries.foldl
          (fun t entry =>
            let existing := listLookup t entry.path
            listUpsert t entry.path
              ⟨entry.path, entry.name, entry.isDir,
                (existing.map fun node => node.children).getD none, false, none⟩)
          s₃.tree
        let treeFinal :=
          match listPath with
          | some lp =>
              if lp ≠ "" then
                listUpsert treeAfterEntries lp
                  ⟨lp, getRemoteNodeName lp, true, some childPaths, false, none⟩
              else treeAfterEntries
          | none => treeAfterEntries
        let s₄ := { s₃ with tree := treeFinal }
        let s₅ :=
          if requestPath = none ∧ listPath = some "/" then
            { s₄ with treeRoots := ["/"], treeExpanded := addId s₄.treeExpanded "/" }
          else if requestPath = none ∧ listPath = none then
            { s₄ with treeRoots := childPaths }
          else s₄
        if requestPath = none then { s₅ with listLoading := false, listError := none } else s₅

/-- The 5-second watchdog callback armed by `requestRemoteListing`: drop
the pending request and record a timeout failure on its target. -/
def fireListTimeout (requestId : String) (s : RemoteListState) : RemoteListState :=
  let requestPath := (listLookup s.requestMap requestId).getD none
  let s₁ := { s with requestMap := listRemove s.requestMap requestId,
                     timeouts := removeId s.timeouts requestId }
  if !isTruthy requestPath then
    { s₁ with listLoading := false, listError := some "Remote list request timed out." }
  else
    match requestPath with
    | some rp =>
        (match listLookup s₁.tree rp with
         | some existing =>
             let updated :=
               { existing with loading := false,
                               error := some "Remote list request timed out." }
             { s₁ with tree := listUpsert s₁.tree rp updated }
         | none => s₁)
    | none => s₁

/-- The idle remote-panel state with sync enabled and a connected server. -/
def remoteListInit : RemoteListState :=
  ⟨true, true, none, [], [], none, none, [], [], [], false, none⟩

/-- C3: evaluation of the handler at the failing input.  Two list
requests `r1` (for `/a`) then `r2` (for `/b`) are tracked concurrently;
the `list-complete` response carrying `r1` is dropped wholesale — the
state is unchanged — because the handler gates on the single
most-recent-request ref (`r2`) instead of the pending-request map, even
though `r1` is still tracked there and its target node is still loading. -/
theorem remote_cross_response_dropped :
    handleListComplete ⟨some "r1", some ⟨[⟨"/a/x", "x", true⟩], some "linux", some "/a"⟩⟩
        (requestRemoteListing (some "/b") "r2"
          (requestRemoteListing (some "/a") "r1" remoteListInit))
      = requestRemoteListing (some "/b") "r2"
          (requestRemoteListing (some "/a") "r1" remoteListInit)
    ∧ listLookup (requestRemoteListing (some "/b") "r2"
          (requestRemoteListing (some "/a") "r1" remoteListInit)).requestMap "r1"
      = some (some "/a")
    ∧ (listLookup (requestRemoteListing (some "/b") "r2"
          (requestRemoteListing (some "/a") "r1" remoteListInit)).tree "/a").map
        (fun node => node.loading) = some true :=
  ⟨by decide, by decide, by decide⟩

/-- C4: evaluation at the failing input.  After the watchdog for request
`r1` fires, the request is failed locally (loading cleared, timeout error
recorded on the `/a` node) — but a matching late `list-complete` is then
still applied: it rewrites the `/a` tree node (children installed, the
recorded timeout error erased) and clears the top-level error state,
instead of being discarded. -/
theorem remote_late_response_applied :
    (listLookup (fireListTimeout "r1"
        (requestRemoteListing (some "/a") "r1" remoteListInit)).tree "/a").map
        (fun node => node.error) = some (some "Remote list request timed out.")
    ∧ (listLookup (fireListTimeout "r1"
        (requestRemoteListing (some "/a") "r1" remoteListInit)).tree "/a").map
        (fun node => node.loading) = some false
    ∧ (listLookup (handleListComplete
          ⟨some "r1", some ⟨[⟨"/a/x", "x", true⟩], some "linux", some "/a"⟩⟩
          (fireListTimeout "r1"
            (requestRemoteListing (some "/a") "r1" remoteListInit))).tree "/a").map
        (fun node => node.children) = some (some ["/a/x"])
    ∧ (listLookup (handleListComplete
          ⟨some "r1", some ⟨[⟨"/a/x", "x", true⟩], some "linux", some "/a"⟩⟩
          (fireListTimeout "r1"
            (requestRemoteListing (some "/a") "r1" remoteListInit))).tree "/a").map
        (fun node => node.error) = some none
    ∧ handleListComplete ⟨some "r1", some ⟨[⟨"/a/x", "x", true⟩], some "linux", some "/a"⟩⟩
          (fireListTimeout "r1" (requestRemoteListing (some "/a") "r1" remoteListInit))
        ≠ fireListTimeout "r1" (requestRemoteListing (some "/a") "r1" remoteListInit) :=
  ⟨by decide, by decide, by decide, by decide, by decide⟩

/-! ### Remote connection panel (for C7, C8)

Embedded from `RemotePanel.tsx`.  The component's pieces of state are the
saved server list, the active server id, and the panel error banner.  The
zustand store actions it calls live outside the provided sources; the one
that matters here (`updateRemoteServerStatus`) is modelled from the spec. -/

/-- Connection status of a remote target. -/
inductive RemoteStatus where
  | disconnected
  | connecting
  | connected
  | error
deriving DecidableEq

/-- Embeds `RemoteServer` (client-side bookkeeping). -/
structure RemoteServer where
  id : String
  name : String
  host : String
  port : Nat
  token : String
  favorite : Bool
  status : RemoteStatus
  lastMessage : Option String
deriving DecidableEq

/-- The panel state: saved servers, active server id, error banner. -/
structure PanelState where
  servers : List RemoteServer
  activeId : Option String
  panelError : Option String
deriving DecidableEq

/-- Modelled from the spec: the zustand store action
`updateRemoteServerStatus(id, status, message?)` (the store module is not
among the provided sources; §3 of the spec records that a `RemoteServer`
holds a connection status and a last status message and is "mutated by
connection-status events").  It sets the matching server's status, and
its last message when the third argument is supplied. -/
def updateRemoteServerStatus (servers : List RemoteServer) (id : String)
    (status : RemoteStatus) (message : Option (Option String)) : List RemoteServer :=
  servers.map fun server =>
    if server.id = id then
      { server with status := status, lastMessage := message.getD server.lastMessage }
    else server

/-- Embeds `connectingServerId`: the first saved server whose status is
`connecting`, if any. -/
def connectingServerId (servers : List RemoteServer) : Option String :=
  (servers.find? fun server => server.status = .connecting).map fun server => server.id

/-- Embeds `resetConnectingServers`: every server other than the active one that
is still `connecting` is reset to `disconnected` with no message (the
source loops over the servers calling the status update per match). -/
def resetConnectingServers (servers : List RemoteServer) (activeId : String) :
    List RemoteServer :=
  servers.map fun server =>
    if server.id ≠ activeId ∧ server.status = .connecting then
      { server with status := .disconnected, lastMessage := none }
    else server

/-- The part of `handleConnect` that runs once the guards pass: clear the
error banner, make the server active, reset other connecting servers, and
mark this one `connecting`.  The returned flag records that
`connectRemote` is dispatched. -/
def handleConnectProceed (s : PanelState) (server : RemoteServer) : PanelState × Bool :=
  ({ s with panelError := none,
            activeId := some server.id,
            servers := updateRemoteServerStatus
              (resetConnectingServers s.servers server.id) server.id .connecting none },
   true)

/-- Embeds `handleConnect` (synchronous part): a blank token or another in-flight
connection attempt aborts with an error banner and no dispatch. -/
def handleConnect (s : PanelState) (server : RemoteServer) : PanelState × Bool :=
  if strTrim server.token = "" then
    ({ s with panelError := some "Token is required for authentication." }, false)
  else
    match connectingServerId s.servers with
    | some cid =>
        if cid ≠ server.id then
          ({ s with panelError := some "Another connection is in progress." }, false)
        else handleConnectProceed s server
    | none => handleConnectProceed s server

/-- The `catch` branch of `handleConnect`: a failed `connectRemote` call
marks the server `error` and surfaces the message. -/
def handleConnectFailure (s : PanelState) (serverId : String) (message : String) : PanelState :=
  { s with servers := updateRemoteServerStatus s.servers serverId .error (some (some message)),
           panelError := some message }

/-- Embeds `handleDisconnect`: make the server active; on success mark it
`disconnected`, on failure mark it `error` with the message. -/
def handleDisconnect (s : PanelState) (server : RemoteServer) (ok : Bool)
    (failMessage : String) : PanelState :=
  let s₁ := { s with panelError := none, activeId := some server.id }
  if ok then
    { s₁ with servers := updateRemoteServerStatus s₁.servers server.id .disconnected (some none) }
  else
    { s₁ with servers := updateRemoteServerStatus s₁.servers server.id .error
                (some (some failMessage)),
              panelError := some failMessage }

/-- Embeds `findServerByAddress`: locate a saved server by its `host:port`
address. -/
def findServerByAddress (servers : List RemoteServer) (address : Option String) :
    Option RemoteServer :=
  match address with
  | none => none
  | some addr =>
      let normalized := strTrim addr
      if normalized = "" then none
      else servers.find? fun server => server.host ++ ":" ++ toString server.port = normalized

/-- The `listenRemoteStatus` callback: route a pushed connection status to
the server matching the address (falling back to the active server), and
adopt a freshly connected match as the active server. -/
def handleStatusEvent (s : PanelState) (address : Option String) (status : RemoteStatus)
    (message : Option String) : PanelState :=
  let matched := findServerByAddress s.servers address
  let targetId :=
    match matched with
    | some m => some m.id
    | none => s.activeId
  match targetId with
  | none => s
  | some tid =>
      let s₁ := { s with servers := updateRemoteServerStatus s.servers tid status (some message) }
      match matched with
      | some m => if status = .connected then { s₁ with activeId := some m.id } else s₁
      | none => s₁

/-- Model of ECMAScript `Number()` restricted to optionally signed decimal
literals (the only shapes the panel's port field produces); other forms
are mapped to NaN (`none`), and the empty (trimmed) string to `0`. -/
def parseDecimal (cs : List Char) : Option ℚ :=
  let intDigits := cs.takeWhile Char.isDigit
  if intDigits = [] then none
  else
    match cs.drop intDigits.length with
    | [] => some (digitsToNat intDigits : ℚ)
    | '.' :: frac =>
        if frac ≠ [] ∧ frac.all Char.isDigit then
          some ((digitsToNat (intDigits ++ frac) : ℚ) / 10 ^ frac.length)
        else none
    | _ => none

/-- Embeds `Number(value)` (decimal forms). -/
def jsNumber (value : String) : Option ℚ :=
  let t := strTrim value
  if t = "" then some 0
  else
    match t.toList with
    | '-' :: rest => (parseDecimal rest).map fun q => -q
    | '+' :: rest => parseDecimal rest
    | cs => parseDecimal cs

/-- Embeds `parsePort`: a finite number in `[1, 65535]`, floored. -/
def parsePort (value : String) : Option Nat :=
  match jsNumber value with
  | none => none
  | some parsed =>
      if parsed < 1 ∨ 65535 < parsed then none
      else some (Int.toNat ⌊parsed⌋)

/-- Result of validating the add-server form. -/
inductive ServerInputResult where
  | failure (message : String)
  | success (name host : String) (port : Nat) (token : String)
deriving DecidableEq

/-- Embeds `getServerInput`: host and port are validated first, then the token
must be non-blank. -/
def getServerInput (nameInput hostInput portInput tokenInput : String) : ServerInputResult :=
  let host := strTrim hostInput
  let name := strTrim nameInput
  let token := strTrim tokenInput
  if host = "" ∨ parsePort portInput = none then
    .failure "Provide a valid host and port."
  else if token = "" then
    .failure "Token is required for authentication."
  else
    .success name host ((parsePort portInput).getD 0) token

/-- Number of saved servers currently in the `connecting` state. -/
def countConnecting (servers : List RemoteServer) : Nat :=
  servers.countP fun server => server.status = .connecting

/-- Two saved servers, both disconnected. -/
def serverA : RemoteServer := ⟨"a", "A", "h1", 1, "t", false, .disconnected, none⟩

/-- Second saved server. -/
def serverB : RemoteServer := ⟨"b", "B", "h2", 2, "t", false, .disconnected, none⟩

/-- Initial panel state for the counterexample traces. -/
def panelS0 : PanelState := ⟨[serverA, serverB], none, none⟩

lemma countP_id_le_one (l : List RemoteServer) (a : String)
    (h : (l.map fun srv => srv.id).Nodup) :
    (l.countP fun srv => srv.id = a) ≤ 1 := by
  induction l with
  | nil => simp
  | cons x t ih =>
      rw [List.map_cons, List.nodup_cons] at h
      by_cases hx : x.id = a
      · rw [List.countP_cons_of_pos _ _ (by simpa using hx)]
        have hzero : (t.countP fun srv => srv.id = a) = 0 := by
          rw [List.countP_eq_zero]
          intro y hy hya
          apply h.1
          rw [hx, ← show y.id = a by simpa using hya]
          exact List.mem_map_of_mem _ hy
        omega
      · rw [List.countP_cons_of_neg _ _ (by simpa using hx)]
        exact ih h.2

lemma two_le_countP (p : RemoteServer → Bool) (l : List RemoteServer) (x y : RemoteServer)
    (hx : x ∈ l) (hy : y ∈ l) (hxy : x ≠ y) (hpx : p x = true) (hpy : p y = true) :
    2 ≤ l.countP p := by
  induction l with
  | nil => simp at hx
  | cons a t ih =>
      rcases List.mem_cons.mp hx with rfl | hxt
      · have hyt : y ∈ t := by
          rcases List.mem_cons.mp hy with rfl | hyt
          · exact absurd rfl hxy
          · exact hyt
        rw [List.countP_cons_of_pos _ _ hpx]
        have : 0 < t.countP p := List.countP_pos_iff.mpr ⟨y, hyt, hpy⟩
        omega
      · rcases List.mem_cons.mp hy with rfl | hyt
        · rw [List.countP_cons_of_pos _ _ hpy]
          have : 0 < t.countP p := List.countP_pos_iff.mpr ⟨x, hxt, hpx⟩
          omega
        · have := ih hxt hyt
          calc 2 ≤ t.countP p := this
            _ ≤ (a :: t).countP p := by
                rcases h : p a
                · rw [List.countP_cons_of_neg _ _ (by simp [h])]
                · rw [List.countP_cons_of_pos _ _ h]
                  omega

lemma countConnecting_update_le (servers : List RemoteServer) (id : String)
    (st : RemoteStatus) (msg : Option (Option String)) (hst : st ≠ .connecting) :
    countConnecting (updateRemoteServerStatus servers id st msg) ≤ countConnecting servers := by
  rw [countConnecting, countConnecting, updateRemoteServerStatus, List.countP_map]
  apply List.countP_mono_left
  intro x _
  by_cases h : x.id = id <;> simp [h, hst, Function.comp]

lemma handleStatusEvent_servers (s : PanelState) (address : Option String)
    (st : RemoteStatus) (msg : Option String) :
    (handleStatusEvent s address st msg).servers = s.servers
    ∨ ∃ tid, (handleStatusEvent s address st msg).servers
        = updateRemoteServerStatus s.servers tid st (some msg) := by
  rw [handleStatusEvent]
  rcases h : findServerByAddress s.servers address with _ | m
  · rcases ha : s.activeId with _ | tid
    · left
      simp [h, ha]
    · right
      exact ⟨tid, by simp [h, ha]⟩
  · right
    refine ⟨m.id, ?_⟩
    by_cases hc : st = RemoteStatus.connected <;> simp [h, hc]

lemma handleConnect_dispatched (s : PanelState) (server : RemoteServer)
    (hdisp : (handleConnect s server).2 = true) :
    (handleConnect s server).1 = (handleConnectProceed s server).1 := by
  rw [handleConnect] at hdisp ⊢
  by_cases ht : strTrim server.token = ""
  · rw [if_pos ht] at hdisp
    simp at hdisp
  · rw [if_neg ht] at hdisp ⊢
    rcases hfind : connectingServerId s.servers with _ | cid
    · rfl
    · rw [hfind] at hdisp
      by_cases hcid : cid ≠ server.id
      · exfalso
        simp [hcid] at hdisp
      · simp [hcid]

lemma countConnecting_proceed (s : PanelState) (server : RemoteServer)
    (hnodup : (s.servers.map fun srv => srv.id).Nodup) :
    countConnecting ((handleConnectProceed s server).1).servers ≤ 1 := by
  have hcount : countConnecting ((handleConnectProceed s server).1).servers
      = s.servers.countP fun srv => srv.id = server.id := by
    rw [handleConnectProceed]
    simp only [countConnecting, updateRemoteServerStatus, resetConnectingServers,
      List.map_map, List.countP_map]
    apply List.countP_congr
    intro x _
    by_cases h : x.id = server.id
    · simp [Function.comp, h]
    · by_cases hc : x.status = .connecting <;>
        simp [Function.comp, h, hc]
  rw [hcount]
  exact countP_id_le_one s.servers server.id hnodup

/-- C7 counterexample: from a panel whose saved servers are all
disconnected, a connect step puts server `a` into `connecting`, and a
subsequent status-update step carrying status `connecting` for server
`b`'s address yields a reachable state with two servers simultaneously
`connecting` — the at-most-one-connecting invariant does not survive
status-update steps. -/
theorem panel_two_connecting_counterexample :
    (∀ server ∈ panelS0.servers, server.status = .disconnected)
    ∧ countConnecting ((handleConnect panelS0 serverA).1).servers = 1
    ∧ countConnecting (handleStatusEvent (handleConnect panelS0 serverA).1
        (some "h2:2") .connecting (some "m")).servers = 2 :=
  ⟨by decide, by decide, by decide⟩

/-- C7 (amended): connect, disconnect, and connect-failure steps — and
status-update steps whose status is not `connecting` — preserve the
at-most-one-connecting invariant (server ids distinct); but a
status-update step carrying `connecting` can put a second server into the
connecting state, so the invariant does not extend to arbitrary
status-update steps.  Initiating a connect for one server while a
different server is connecting does not start a second attempt and leaves
the server list unchanged; when an attempt does proceed, every other
server ends non-connecting, any previously connecting one reset to
`disconnected`. -/
theorem panel_connect_discipline :
    (∀ (s : PanelState) (server : RemoteServer),
      (s.servers.map fun srv => srv.id).Nodup → countConnecting s.servers ≤ 1 →
        countConnecting ((handleConnect s server).1).servers ≤ 1)
    ∧ (∀ (s : PanelState) (server : RemoteServer) (ok : Bool) (msg : String),
        countConnecting s.servers ≤ 1 →
          countConnecting (handleDisconnect s server ok msg).servers ≤ 1)
    ∧ (∀ (s : PanelState) (serverId msg : String),
        countConnecting s.servers ≤ 1 →
          countConnecting (handleConnectFailure s serverId msg).servers ≤ 1)
    ∧ (∀ (s : PanelState) (address : Option String) (st : RemoteStatus)
          (msg : Option String), st ≠ .connecting → countConnecting s.servers ≤ 1 →
        countConnecting (handleStatusEvent s address st msg).servers ≤ 1)
    ∧ (∀ (s : PanelState) (server other : RemoteServer),
        countConnecting s.servers ≤ 1 → other ∈ s.servers → other.status = .connecting →
          other.id ≠ server.id →
        (handleConnect s server).2 = false ∧ (handleConnect s server).1.servers = s.servers)
    ∧ (∀ (s : PanelState) (server : RemoteServer), (handleConnect s server).2 = true →
        (∀ srv ∈ (handleConnect s server).1.servers,
            srv.id ≠ server.id → srv.status ≠ .connecting)
        ∧ (∀ srv ∈ s.servers, srv.id ≠ server.id → srv.status = .connecting →
            { srv with status := .disconnected, lastMessage := none }
              ∈ (handleConnect s server).1.servers)) := by
  refine ⟨?_, ?_, ?_, ?_, ?_, ?_⟩
  · -- connect preserves the invariant
    intro s server hnodup hle
    rw [handleConnect]
    split
    · exact hle
    · split
      · split
        · exact hle
        · exact countConnecting_proceed s server hnodup
      · exact countConnecting_proceed s server hnodup
  · intro s server ok msg hle
    rcases ok with _ | _
    · calc countConnecting (handleDisconnect s server false msg).servers
          = countConnecting (updateRemoteServerStatus s.servers server.id
              RemoteStatus.error (some (some msg))) := rfl
        _ ≤ countConnecting s.servers := countConnecting_update_le _ _ _ _ (by decide)
        _ ≤ 1 := hle
    · calc countConnecting (handleDisconnect s server true msg).servers
          = countConnecting (updateRemoteServerStatus s.servers server.id
              RemoteStatus.disconnected (some none)) := rfl
        _ ≤ countConnecting s.servers := countConnecting_update_le _ _ _ _ (by decide)
        _ ≤ 1 := hle
  · intro s serverId msg hle
    calc countConnecting (handleConnectFailure s serverId msg).servers
        = countConnecting (updateRemoteServerStatus s.servers serverId
            RemoteStatus.error (some (some msg))) := rfl
      _ ≤ countConnecting s.servers := countConnecting_update_le _ _ _ _ (by decide)
      _ ≤ 1 := hle
  · intro s address st msg hst hle
    rcases handleStatusEvent_servers s address st msg with heq | ⟨tid, heq⟩
    · rw [heq]
      exact hle
    · rw [heq]
      exact le_trans (countConnecting_update_le _ _ _ _ hst) hle
  · -- an in-flight attempt at another server blocks a new one
    intro s server other hle hother hconn hne
    rw [handleConnect]
    split
    · exact ⟨rfl, rfl⟩
    · obtain ⟨f, hf⟩ : ∃ f, (s.servers.find? fun srv => srv.status = .connecting) = some f := by
        rcases hf0 : s.servers.find? fun srv => srv.status = .connecting with _ | f
        · exfalso
          have hsome : (s.servers.find? fun srv => srv.status = .connecting).isSome := by
            rw [List.find?_isSome]
            exact ⟨other, hother, by simpa using hconn⟩
          rw [hf0] at hsome
          simp at hsome
        · exact ⟨f, hf0⟩
      have hfmem : f ∈ s.servers := List.mem_of_find?_eq_some hf
      have hfconn : f.status = .connecting := by
        simpa using List.find?_some hf
      have hfid : f.id ≠ server.id := by
        intro hcontra
        have hfo : f ≠ other := by
          intro hcontra2
          rw [hcontra2] at hcontra
          exact hne hcontra
        have h2 := two_le_countP (fun srv => srv.status = .connecting) s.servers f other
          hfmem hother hfo (by simpa using hfconn) (by simpa using hconn)
        rw [countConnecting] at hle
        omega
      have hfind : connectingServerId s.servers = some f.id := by
        rw [connectingServerId, hf]
        rfl
      rw [hfind]
      simp [hfid]
  · -- a proceeding attempt resets every other connecting server
    intro s server hdisp
    have hproceed : (handleConnect s server).1 = (handleConnectProceed s server).1 :=
      handleConnect_dispatched s server hdisp
    constructor
    · intro srv hsrv hid
      rw [hproceed] at hsrv
      rw [handleConnectProceed] at hsrv
      simp only [updateRemoteServerStatus, resetConnectingServers, List.map_map,
        List.mem_map] at hsrv
      rcases hsrv with ⟨x, -, rfl⟩
      by_cases hx : x.id = server.id
      · exfalso
        apply hid
        by_cases hc : x.id ≠ server.id ∧ x.status = .connecting <;>
          simp [Function.comp, hc, hx]
      · by_cases hc : x.status = .connecting <;>
          simp [Function.comp, hx, hc]
    · intro srv hsrv hid hconn
      rw [hproceed, handleConnectProceed]
      simp only [updateRemoteServerStatus, resetConnectingServers, List.map_map]
      have : ({ srv with status := RemoteStatus.disconnected, lastMessage := none })
          = ((fun server_1 =>
              if server_1.id = server.id then
                { server_1 with status := RemoteStatus.connecting,
                                lastMessage := (none : Option (Option String)).getD
                                  server_1.lastMessage }
              else server_1) ∘ fun server_1 =>
              if server_1.id ≠ server.id ∧ server_1.status = RemoteStatus.connecting then
                { server_1 with status := RemoteStatus.disconnected, lastMessage := none }
              else server_1) srv := by
        simp [Function.comp, hid, hconn]
      rw [this]
      exact List.mem_map_of_mem _ hsrv

/-- C7 witness: the connect-preservation conjunct applied to the
all-disconnected two-server panel. -/
theorem panel_connect_discipline_witness :
    ((panelS0.servers.map fun srv => srv.id).Nodup ∧ countConnecting panelS0.servers ≤ 1)
    ∧ countConnecting ((handleConnect panelS0 serverA).1).servers ≤ 1 :=
  ⟨⟨by decide, by decide⟩,
   panel_connect_discipline.1 panelS0 serverA (by decide) (by decide)⟩

/-- A saved server whose token is whitespace-only. -/
def serverBlank : RemoteServer := ⟨"c", "C", "h3", 3, " ", false, .disconnected, none⟩

/-- Panel holding only the blank-token server. -/
def panelS1 : PanelState := ⟨[serverBlank], none, none⟩

/-- C8 counterexample: connecting with a whitespace-only token sets the
authentication error banner and dispatches nothing, but the server's
connection status remains `disconnected` — it is not set to `error` as
the claim states. -/
theorem panel_blank_token_counterexample :
    strTrim serverBlank.token = ""
    ∧ (handleConnect panelS1 serverBlank).2 = false
    ∧ (handleConnect panelS1 serverBlank).1.panelError
        = some "Token is required for authentication."
    ∧ ((handleConnect panelS1 serverBlank).1.servers.map fun srv => srv.status)
        = [RemoteStatus.disconnected] :=
  ⟨by decide, by decide, by decide, by decide⟩

/-- C8 (amended): for every server whose bearer token is empty or
whitespace-only, the connect action sets the authentication error message
and never dispatches `connectRemote` — so no scan, list, or disk-usage
request follows on that attempt — while the saved server list (statuses
included) and the active server are left unchanged, the connection status
not being set to `error`; and saving a new server with a blank token is
always rejected with an error. -/
theorem panel_blank_token_behavior (s : PanelState) (server : RemoteServer)
    (htoken : strTrim server.token = "") :
    (handleConnect s server).2 = false
    ∧ (handleConnect s server).1.servers = s.servers
    ∧ (handleConnect s server).1.panelError = some "Token is required for authentication."
    ∧ (handleConnect s server).1.activeId = s.activeId
    ∧ (∀ nameInput hostInput portInput tokenInput : String, strTrim tokenInput = "" →
        ∃ msg, getServerInput nameInput hostInput portInput tokenInput
          = .failure msg) := by
  refine ⟨?_, ?_, ?_, ?_, ?_⟩
  · rw [handleConnect, if_pos htoken]
  · rw [handleConnect, if_pos htoken]
  · rw [handleConnect, if_pos htoken]
  · rw [handleConnect, if_pos htoken]
  · intro nameInput hostInput portInput tokenInput htok
    rw [getServerInput]
    by_cases hhp : strTrim hostInput = "" ∨ parsePort portInput = none
    · exact ⟨"Provide a valid host and port.", by rw [if_pos hhp]⟩
    · refine ⟨"Token is required for authentication.", ?_⟩
      rw [if_neg hhp, if_pos htok]

/-- C8 witness: the blank-token behavior at the concrete
whitespace-token server. -/
theorem panel_blank_token_behavior_witness :
    strTrim serverBlank.token = ""
    ∧ ((handleConnect panelS1 serverBlank).2 = false
      ∧ (handleConnect panelS1 serverBlank).1.servers = panelS1.servers
      ∧ (handleConnect panelS1 serverBlank).1.panelError
          = some "Token is required for authentication."
      ∧ (handleConnect panelS1 serverBlank).1.activeId = panelS1.activeId
      ∧ (∀ nameInput hostInput portInput tokenInput : String, strTrim tokenInput = "" →
          ∃ msg, getServerInput nameInput hostInput portInput tokenInput
            = .failure msg)) :=
  ⟨by decide, panel_blank_token_behavior panelS1 serverBlank (by decide)⟩

end Dragabyte
